import Mathlib

/-!
Verification of the MustScript interpreter (`a4main.py`): a shallow embedding
of its AST, evaluator, registration pass and (spec-modelled) parser, together
with theorems settling the specified properties.

Python values `int` / `str` / `list` are embedded as `Value.vint` /
`Value.vstr` / `Value.vref`: lists are reference-like in Python, so a list
value is an address into an explicit heap of cells, mirroring object
identity and in-place mutation.  Python exceptions are embedded as `Err`:
`EvalError` is the interpreter's own error class (caught by the driver);
the remaining constructors are host-level (uncaught) Python exceptions.
-/

namespace A4

/-- Runtime errors.  `evalError` embeds the source's `EvalError`; the other
constructors embed host-level Python exceptions that the driver does not
catch (`assert` failure, `TypeError`, `IndexError`, `AttributeError`,
`OverflowError` from float conversion). -/
inductive Err where
  | evalError
  | assertionError
  | typeError
  | indexError
  | attributeError
  | overflowError
deriving DecidableEq, Repr

/-- Runtime values: Python `int`, `str`, and `list` (the latter as a heap
address, since Python lists are mutable objects shared by reference). -/
inductive Value where
  | vint (i : ℤ)
  | vstr (s : List Char)
  | vref (a : ℕ)
deriving DecidableEq, Repr

/-- The heap of list objects: address `a` denotes the cell `h.getD a []`.
Addresses are only ever created by allocation (`allocHeap`), so the default
is never reached in a run of the interpreter. -/
abbrev Heap := List (List Value)

/-- A variable store (`global_var_env` / `local_var_env`): a Python dict
from names to values, embedded as an association list with unique keys. -/
abbrev VEnv := List (String × Value)

/-- Python `name in env` / `env[name]` lookup. -/
def lookupEnv : VEnv → String → Option Value
  | [], _ => none
  | (k, v) :: rest, x => if k = x then some v else lookupEnv rest x

/-- Python `env[name] = v`: overwrite the existing binding, else append. -/
def insertEnv : VEnv → String → Value → VEnv
  | [], x, v => [(x, v)]
  | (k, w) :: rest, x, v =>
    if k = x then (k, v) :: rest else (k, w) :: insertEnv rest x v

/-- Allocate a fresh list object (Python list construction). -/
def allocHeap (h : Heap) (cells : List Value) : Value × Heap :=
  (.vref h.length, h ++ [cells])

/-- Python list `cs[k] = w`: indices in `[0, len)` write directly, indices in
`[-len, 0)` wrap around, anything else raises `IndexError`. -/
def pyListSet (cs : List Value) (k : ℤ) (w : Value) : Except Err (List Value) :=
  if 0 ≤ k then
    if k < cs.length then .ok (cs.set k.toNat w) else .error .indexError
  else
    if 0 ≤ k + cs.length then .ok (cs.set (k + cs.length).toNat w)
    else .error .indexError

/-- Python `xs[k]` read on a generic sequence of `length` elements, returning
the normalized position: `[0, len)` direct, `[-len, 0)` wraps, else
`IndexError`. -/
def pyIndexPos (length : ℕ) (k : ℤ) : Except Err ℕ :=
  if 0 ≤ k then
    if k < length then .ok k.toNat else .error .indexError
  else
    if 0 ≤ k + length then .ok (k + length).toNat else .error .indexError

end A4

namespace A4

/-! ### Python float division, `int(v1 / v2)`

The source computes integer division as `int(v1 / v2)`: `v1 / v2` is Python
float (IEEE 754 binary64) true division, correctly rounded to nearest with
ties to even, raising `OverflowError` when the rounded value exceeds the
finite range; `int` then truncates the float toward zero.  We model this
exactly with integer arithmetic: the quotient `n/d` of the operands'
magnitudes is rounded to `M·2^(e-52)` where `e = ⌊log₂ (n/d)⌋` and `M` is
the half-to-even rounding of `(n/d)/2^(e-52)`; overflow is `|rounded| ≥
2^1024`.  Gradual underflow (subnormals) is not modelled separately: it can
only affect magnitudes below `2^-1022`, which truncate to `0` either way. -/

/-- Round `N / D` (for `D > 0`) to the nearest natural, ties to even. -/
def rndHalfEvenNat (N D : ℕ) : ℕ :=
  let q := N / D
  let r := N % D
  if 2 * r < D then q
  else if D < 2 * r then q + 1
  else if q % 2 = 0 then q else q + 1

/-- Fuel-driven `⌊log₂ n⌋` (for `n ≥ 1`); `log2fuel n n` gives enough fuel. -/
def log2fuel : ℕ → ℕ → ℕ
  | 0, _ => 0
  | f + 1, n => if n < 2 then 0 else log2fuel f (n / 2) + 1

/-- `⌊log₂ n⌋` for `n ≥ 1` (and `0` at `0`). -/
def log2n (n : ℕ) : ℕ := log2fuel n n

/-- Smallest `j` with `d ≤ cur · 2^j`, provided the fuel suffices. -/
def scaleUp : ℕ → ℕ → ℕ → ℕ
  | 0, _, _ => 0
  | f + 1, cur, d => if d ≤ cur then 0 else scaleUp f (2 * cur) d + 1

/-- `⌊log₂ (n/d)⌋` for `n, d ≥ 1`, as an integer (negative when `n < d`). -/
def flog2 (n d : ℕ) : ℤ :=
  if d ≤ n then (log2n (n / d) : ℤ) else -((scaleUp d (2 * n) d : ℤ) + 1)

/-- Magnitude of the correctly rounded binary64 value of `n / d`
(`n, d ≥ 1`), as a mantissa `M` with value `M · 2^(e-52)`, `e = ⌊log₂ (n/d)⌋`. -/
def floatMant (n d : ℕ) : ℕ :=
  let e := flog2 n d
  if 52 ≤ e then rndHalfEvenNat n (d * 2 ^ (e - 52).toNat)
  else rndHalfEvenNat (n * 2 ^ (52 - e).toNat) d

/-- `int(a / b)` for `b ≠ 0`: Python float true division followed by
truncation toward zero, with `OverflowError` outside the binary64 range. -/
def pyTrueDivInt (a b : ℤ) : Except Err ℤ :=
  if a = 0 then .ok 0 else
  let n := a.natAbs
  let d := b.natAbs
  let e := flog2 n d
  let M := floatMant n d
  let sgn : ℤ := if (0 ≤ a ∧ 0 ≤ b) ∨ (a < 0 ∧ b < 0) then 1 else -1
  if 52 ≤ e then
    if 2 ^ 1024 ≤ M * 2 ^ (e - 52).toNat then .error .overflowError
    else .ok (sgn * (M * 2 ^ (e - 52).toNat : ℕ))
  else
    if 2 ^ (1024 + (52 - e).toNat) ≤ M then .error .overflowError
    else .ok (sgn * (M / 2 ^ (52 - e).toNat : ℕ))

/-! ### Abstract syntax trees

One constructor per AST node class of the source.  The source dispatches
binary operators on their operator string; the parser only ever constructs
the strings `+ - * / == < > and or`, embedded here as the closed type `Op`. -/

/-- Binary operator of a `BinOpExp` node (the operator strings the parser
produces). -/
inductive Op where
  | add | sub | mul | div | eq | lt | gt | land | lor
deriving DecidableEq, Repr

/-- Expression nodes: `Var`, `Int`, `String`, `Array`, `Index`, `BinOpExp`,
`UniOpExp` (the only unary operator is `not`). -/
inductive Exp where
  | var (name : String)
  | intLit (value : ℤ)
  | strLit (value : List Char)
  | arrayLit (elements : List Exp)
  | index (indexable : Exp) (idx : Exp)
  | binOp (left : Exp) (op : Op) (right : Exp)
  | notOp (arg : Exp)
deriving Repr

/-- Statement nodes: `Print`, `Assign`, `Block`, `If`, `While`, `Def`,
`Call`. -/
inductive Stmt where
  | print (exp : Exp)
  | assign (left : Exp) (right : Exp)
  | block (stmts : List Stmt)
  | ifS (exp : Exp) (stmt : Stmt)
  | whileS (exp : Exp) (stmt : Stmt)
  | defS (name : String) (params : List String) (body : Stmt)
  | call (name : String) (args : List Exp)
deriving Repr

/-! ### Expression evaluation

`Exp.eval` methods of the source.  `global_var_env` is a module-level
global in the source; here it is passed explicitly (read-only: no
expression ever writes a store).  Array literals allocate fresh heap cells,
so evaluation threads the heap. -/

/-- `BinOpExp.eval` after both operands are evaluated: `+` on two ints or
two strs; every other operator demands ints; `/` checks for a zero divisor
and then computes `int(v1 / v2)`; comparisons and `and`/`or` yield `0`/`1`. -/
def evalBinOp (op : Op) (v1 v2 : Value) : Except Err Value :=
  match op with
  | .add =>
    match v1, v2 with
    | .vint a, .vint b => .ok (.vint (a + b))
    | .vstr a, .vstr b => .ok (.vstr (a ++ b))
    | _, _ => .error .evalError
  | _ =>
    match v1, v2 with
    | .vint a, .vint b =>
      match op with
      | .sub => .ok (.vint (a - b))
      | .mul => .ok (.vint (a * b))
      | .div =>
        if b = 0 then .error .evalError
        else (pyTrueDivInt a b).map fun q => .vint q
      | .eq => .ok (.vint (if a = b then 1 else 0))
      | .lt => .ok (.vint (if a < b then 1 else 0))
      | .gt => .ok (.vint (if b < a then 1 else 0))
      | .land => .ok (.vint (if a ≠ 0 ∧ b ≠ 0 then 1 else 0))
      | .lor => .ok (.vint (if a ≠ 0 ∨ b ≠ 0 then 1 else 0))
      | .add => .ok (.vint (a + b))
    | _, _ => .error .evalError

/-- `Index.eval` after both sub-expressions are evaluated: the base must be
a str or list (`EvalError` otherwise), the index an int (`EvalError`), the
index must be below the length (`EvalError`); the remaining Python `v1[v2]`
wraps indices in `[-len, 0)` and raises `IndexError` below `-len`. -/
def evalIndexVal (h : Heap) (v1 v2 : Value) : Except Err Value :=
  match v1 with
  | .vint _ => .error .evalError
  | .vstr s =>
    match v2 with
    | .vint k =>
      if (s.length : ℤ) ≤ k then .error .evalError
      else (pyIndexPos s.length k).map fun p => .vstr [s.getD p ' ']
    | _ => .error .evalError
  | .vref a =>
    match v2 with
    | .vint k =>
      let cs := h.getD a []
      if (cs.length : ℤ) ≤ k then .error .evalError
      else (pyIndexPos cs.length k).map fun p => cs.getD p (.vint 0)
    | _ => .error .evalError

mutual

/-- `eval(self, local_var_env)` of the expression node classes.  `L` is the
local store, `G` the global store, `h` the heap of list objects. -/
def evalExp : Exp → VEnv → VEnv → Heap → Except Err (Value × Heap)
  | .var x, L, G, h =>
    match lookupEnv L x with
    | some v => .ok (v, h)
    | none =>
      match lookupEnv G x with
      | some v => .ok (v, h)
      | none => .error .evalError
  | .intLit i, _, _, h => .ok (.vint i, h)
  | .strLit s, _, _, h => .ok (.vstr s, h)
  | .arrayLit es, L, G, h =>
    match evalExpList es L G h with
    | .ok (vs, h1) => .ok (allocHeap h1 vs)
    | .error e => .error e
  | .index e1 e2, L, G, h =>
    match evalExp e1 L G h with
    | .ok (v1, h1) =>
      match evalExp e2 L G h1 with
      | .ok (v2, h2) => (evalIndexVal h2 v1 v2).map fun v => (v, h2)
      | .error e => .error e
    | .error e => .error e
  | .binOp e1 op e2, L, G, h =>
    match evalExp e1 L G h with
    | .ok (v1, h1) =>
      match evalExp e2 L G h1 with
      | .ok (v2, h2) => (evalBinOp op v1 v2).map fun v => (v, h2)
      | .error e => .error e
    | .error e => .error e
  | .notOp e, L, G, h =>
    match evalExp e L G h with
    | .ok (.vint i, h1) => .ok (.vint (if i = 0 then 1 else 0), h1)
    | .ok _ => .error .evalError
    | .error e' => .error e'

/-- `Array.eval`'s element loop: evaluate the elements left to right,
threading the heap. -/
def evalExpList : List Exp → VEnv → VEnv → Heap → Except Err (List Value × Heap)
  | [], _, _, h => .ok ([], h)
  | e :: es, L, G, h =>
    match evalExp e L G h with
    | .ok (v, h1) =>
      match evalExpList es L G h1 with
      | .ok (vs, h2) => .ok (v :: vs, h2)
      | .error err => .error err
    | .error err => .error err

end

/-! ### Printed representations

`Print.exec` emits `repr(value)`.  Python `repr`: ints in decimal; strings
quoted (single quotes, or double quotes when the string contains a single
quote and no double quote — the tokenizer guarantees no double quotes —
with backslashes and quotes escaped); lists bracketed with `, `-separated
recursive representations.  Control-character escaping and the `[...]`
marker Python prints for self-referential lists are beyond the values the
claims exercise; the recursion is fueled, and fuel `h.length + 1` covers
every acyclic value. -/

/-- `repr` of a Python string (quote choice and escaping as above). -/
def pyReprStr (s : List Char) : List Char :=
  let q : Char := if s.contains '\'' ∧ ¬ s.contains '"' then '"' else '\''
  q :: (s.flatMap fun c => if c = '\\' ∨ c = q then ['\\', c] else [c]) ++ [q]

/-- Join with `", "` (Python list repr separator). -/
def joinComma : List (List Char) → List Char
  | [] => []
  | [x] => x
  | x :: y :: rest => x ++ ',' :: ' ' :: joinComma (y :: rest)

/-- Map an element-representation function over list cells (helper keeping
`reprValue` structurally recursive on its fuel). -/
def mapRepr (g : Value → List Char) : List Value → List (List Char)
  | [] => []
  | v :: vs => g v :: mapRepr g vs

/-- `repr(v)`, with fueled recursion through list cells. -/
def reprValue (h : Heap) : ℕ → Value → List Char
  | _, .vint i => (toString i).data
  | _, .vstr s => pyReprStr s
  | 0, .vref _ => '[' :: '.' :: '.' :: '.' :: [']']
  | f + 1, .vref a =>
    '[' :: joinComma (mapRepr (fun v => reprValue h f v) (h.getD a [])) ++ [']']

/-! ### Statement execution

`exec(self, local_var_env, is_global)` of the statement node classes.  The
source threads one mutable local store and the module globals
`global_var_env` and `proc_env`; here the local store is passed in and
returned, and the globals live in an explicit state `St` (the procedure
table is read-only during execution — `exec` only consults it).  `while`
and procedure calls make execution non-structural, so `execStmt` is fueled:
`Res.timeout` means the fuel ran out and never arises for enough fuel. -/

/-- Procedure table `proc_env`: name to (parameter list, body). -/
abbrev ProcEnv := List (String × (List String × Stmt))

/-- Python `name in proc_env` / `proc_env[name]`. -/
def lookupProc : ProcEnv → String → Option (List String × Stmt)
  | [], _ => none
  | (k, v) :: rest, x => if k = x then some v else lookupProc rest x

/-- Mutable interpreter state besides the local store: the global store,
the heap of list objects, and the lines printed so far (in order). -/
structure St where
  genv : VEnv
  heap : Heap
  out : List (List Char)
deriving Repr

/-- Result of executing a statement: the local store and state afterwards,
an uncaught exception, or fuel exhaustion. -/
inductive Res where
  | ok (L : VEnv) (st : St)
  | err (e : Err)
  | timeout
deriving Repr

/-- Python `v != 0` (the `if`/`while` condition test): ints compare by
value; a str or list is never equal to the int `0`. -/
def pyNeZero : Value → Bool
  | .vint i => i ≠ 0
  | .vstr _ => true
  | .vref _ => true

/-- Python `len(v)`: length of a str or list; `TypeError` on an int. -/
def pyLen (h : Heap) : Value → Except Err ℕ
  | .vint _ => .error .typeError
  | .vstr s => .ok s.length
  | .vref a => .ok (h.getD a []).length

/-- Python `v >= (n : int)`: int compares; str/list raise `TypeError`. -/
def pyGeNat (v : Value) (n : ℕ) : Except Err Bool :=
  match v with
  | .vint i => .ok (decide ((n : ℤ) ≤ i))
  | _ => .error .typeError

/-- `AssignStmt` target `container[k] = w` (Python setitem): list cells are
overwritten in the heap (wrapping negative indices, `IndexError` out of
range); strs and ints do not support item assignment (`TypeError`). -/
def pySetItem (h : Heap) (v : Value) (k : ℤ) (w : Value) : Except Err Heap :=
  match v with
  | .vref a =>
    match pyListSet (h.getD a []) k w with
    | .ok cs => .ok (h.set a cs)
    | .error e => .error e
  | _ => .error .typeError

/-- `self.left.indexable.name`: only `Var` nodes have a `name` attribute;
any other expression node raises `AttributeError`. -/
def varNameOf : Exp → Except Err String
  | .var x => .ok x
  | _ => .error .attributeError

/-- The guarded indexed write `Assign.exec` performs against one store
`env` once the target variable's name is known to be bound there: evaluate
the index, compare it with `len(env[name])` (`EvalError` when it is at or
past the length), then run Python's `env[name][index] = right` — the
right-hand side first, then a second evaluation of the index, then the
setitem. -/
def execIndexAssign (x : String) (ie rhs : Exp) (env L G : VEnv) (h : Heap) :
    Except Err (Value × Heap) :=
  match evalExp ie L G h with
  | .error e => .error e
  | .ok (kv, h1) =>
    match pyLen h1 ((lookupEnv env x).getD (.vint 0)) with
    | .error e => .error e
    | .ok len =>
      match pyGeNat kv len with
      | .error e => .error e
      | .ok true => .error .evalError
      | .ok false =>
        match evalExp rhs L G h1 with
        | .error e => .error e
        | .ok (w, h2) =>
          match evalExp ie L G h2 with
          | .error e => .error e
          | .ok (kv2, h3) =>
            match kv2 with
            | .vint k2 =>
              match pySetItem h3 ((lookupEnv env x).getD (.vint 0)) k2 w with
              | .ok h4 => .ok (w, h4)
              | .error e => .error e
            | _ => .error .typeError

/-- `Assign.exec`.  Returns the updated local store and state.  A `Var`
target binds in the global store when `is_global` and in the local store
otherwise; an `Index` target requires a `Var` base (`AttributeError`
otherwise) resolved in the global store when `is_global`, and otherwise in
the local store first, else the global store, else `EvalError`; any other
target shape falls through both `isinstance` tests and does nothing. -/
def execAssign (left right : Exp) (L : VEnv) (isGlobal : Bool) (st : St) : Res :=
  if isGlobal then
    match left with
    | .var x =>
      match evalExp right L st.genv st.heap with
      | .ok (v, h1) => .ok L { st with genv := insertEnv st.genv x v, heap := h1 }
      | .error e => .err e
    | .index base ie =>
      match varNameOf base with
      | .error e => .err e
      | .ok x =>
        match lookupEnv st.genv x with
        | none => .err .evalError
        | some _ =>
          match execIndexAssign x ie right st.genv L st.genv st.heap with
          | .ok (_, h') => .ok L { st with heap := h' }
          | .error e => .err e
    | _ => .ok L st
  else
    match left with
    | .var x =>
      match evalExp right L st.genv st.heap with
      | .ok (v, h1) => .ok (insertEnv L x v) { st with heap := h1 }
      | .error e => .err e
    | .index base ie =>
      match varNameOf base with
      | .error e => .err e
      | .ok x =>
        match lookupEnv L x with
        | some _ =>
          match execIndexAssign x ie right L L st.genv st.heap with
          | .ok (_, h') => .ok L { st with heap := h' }
          | .error e => .err e
        | none =>
          match lookupEnv st.genv x with
          | some _ =>
            match execIndexAssign x ie right st.genv L st.genv st.heap with
            | .ok (_, h') => .ok L { st with heap := h' }
            | .error e => .err e
          | none => .err .evalError
    | _ => .ok L st

/-- Sequential execution of a block's statements (helper keeping `execStmt`
structurally recursive on its fuel). -/
def runStmts (step : Stmt → VEnv → St → Res) : List Stmt → VEnv → St → Res
  | [], L, st => .ok L st
  | s :: ss, L, st =>
    match step s L st with
    | .ok L' st' => runStmts step ss L' st'
    | r => r

/-- `Call.exec`'s parameter loop, after the arity assertion: for each
`(param, arg)` pair of `zip(proc_env[name][0], self.args)` in order,
evaluate the argument in the caller's store and bind the parameter in the
copied store `acc`. -/
def bindArgs : List String → List Exp → VEnv → VEnv → VEnv → Heap →
    Except Err (VEnv × Heap)
  | [], _, acc, _, _, h => .ok (acc, h)
  | _ :: _, [], acc, _, _, h => .ok (acc, h)
  | x :: xs, e :: es, acc, L, G, h =>
    match evalExp e L G h with
    | .ok (v, h1) => bindArgs xs es (insertEnv acc x v) L G h1
    | .error err => .error err

/-- `exec(self, local_var_env, is_global)`, fueled.  `P` is the procedure
table collected before execution (never modified here: `execStmt` only
reads it). -/
def execStmt : ℕ → ProcEnv → Stmt → VEnv → Bool → St → Res
  | 0, _, _, _, _, _ => .timeout
  | f + 1, P, stmt, L, isGlobal, st =>
    match stmt with
    | .print e =>
      match evalExp e L st.genv st.heap with
      | .ok (v, h1) =>
        .ok L { st with heap := h1,
                        out := st.out ++ [reprValue h1 (h1.length + 1) v] }
      | .error err => .err err
    | .assign left right => execAssign left right L isGlobal st
    | .block ss => runStmts (fun s L' st' => execStmt f P s L' isGlobal st') ss L st
    | .ifS c s =>
      match evalExp c L st.genv st.heap with
      | .ok (v, h1) =>
        if pyNeZero v then execStmt f P s L isGlobal { st with heap := h1 }
        else .ok L { st with heap := h1 }
      | .error err => .err err
    | .whileS c s =>
      match evalExp c L st.genv st.heap with
      | .ok (v, h1) =>
        if pyNeZero v then
          match execStmt f P s L isGlobal { st with heap := h1 } with
          | .ok L' st' => execStmt f P (.whileS c s) L' isGlobal st'
          | r => r
        else .ok L { st with heap := h1 }
      | .error err => .err err
    | .defS _ _ _ => .ok L st
    | .call name args =>
      match lookupProc P name with
      | none => .err .evalError
      | some (params, body) =>
        if params.length = args.length then
          match bindArgs params args L L st.genv st.heap with
          | .ok (localVars, h1) =>
            match execStmt f P body localVars false { st with heap := h1 } with
            | .ok _ st' => .ok L st'
            | r => r
          | .error err => .err err
        else .err .assertionError

/-! ### The registration pass

`anlz_procs` walks every statement (including bodies of `if`/`while` and of
other definitions, whether or not control flow ever reaches them) and
inserts each `Def` into `proc_env`, failing with `EvalError` when the name
is already present; the body of a definition is walked after its own
insertion. -/

mutual

/-- `anlz_procs(self)`, threading `proc_env`. -/
def anlzProcs : Stmt → ProcEnv → Except Err ProcEnv
  | .print _, P => .ok P
  | .assign _ _, P => .ok P
  | .block ss, P => anlzProcsList ss P
  | .ifS _ s, P => anlzProcs s P
  | .whileS _ s, P => anlzProcs s P
  | .defS n ps b, P =>
    if (lookupProc P n).isSome then .error .evalError
    else anlzProcs b (P ++ [(n, (ps, b))])
  | .call _ _, P => .ok P

/-- `Block.anlz_procs`'s loop over the block's statements. -/
def anlzProcsList : List Stmt → ProcEnv → Except Err ProcEnv
  | [], P => .ok P
  | s :: ss, P =>
    match anlzProcs s P with
    | .ok P' => anlzProcsList ss P'
    | .error e => .error e

end

mutual

/-- The names of all `Def` statements anywhere in a statement, in the order
`anlz_procs` visits them. -/
def defNames : Stmt → List String
  | .print _ => []
  | .assign _ _ => []
  | .block ss => defNamesList ss
  | .ifS _ s => defNames s
  | .whileS _ s => defNames s
  | .defS n _ b => n :: defNames b
  | .call _ _ => []

/-- `defNames` over a list of statements. -/
def defNamesList : List Stmt → List String
  | [] => []
  | s :: ss => defNames s ++ defNamesList ss

end

mutual

/-- The `(name, (params, body))` entries of all `Def` statements anywhere
in a statement, in the order `anlz_procs` inserts them. -/
def defsOf : Stmt → ProcEnv
  | .print _ => []
  | .assign _ _ => []
  | .block ss => defsOfList ss
  | .ifS _ s => defsOf s
  | .whileS _ s => defsOf s
  | .defS n ps b => (n, (ps, b)) :: defsOf b
  | .call _ _ => []

/-- `defsOf` over a list of statements. -/
def defsOfList : List Stmt → ProcEnv
  | [] => []
  | s :: ss => defsOf s ++ defsOfList ss

end

/-- The driver's evaluation phases on a parsed program: collect procedure
definitions into a fresh `proc_env`, and only if that succeeds execute the
program against fresh stores (`global_var_env, local_var_env, is_global =
{}, {}, True`).  A failure during collection therefore happens before any
statement executes: nothing is printed and no store is touched. -/
def runProgram (fuel : ℕ) (p : Stmt) : Res :=
  match anlzProcs p [] with
  | .error e => .err e
  | .ok P => execStmt fuel P p [] true ⟨[], [], []⟩

/-! ### Tokenizer and parser

Modelled from the spec: the source defines the grammar as a `tpg` grammar
docstring, but the `tpg` parsing engine itself is not part of the
repository.  Per the spec (§2, §4.1, §4.2, §6) the engine is embedded here
as: a lexer producing the declared token classes (`int`, `string`,
`ident`), with the grammar's fixed symbols and keywords (inline tokens)
taking priority over the declared classes, first match wins, whitespace
and `#`-comments discarded; and a recursive-descent parser with ordered
alternatives and backtracking, one production per grammar rule in source
order, accepting exactly a single `Stmt` covering the whole input
(`Program := Stmt`).  Lexical and syntactic failures are both `none` (both
surface as the parsing-failure category). -/

/-- Lexical tokens: the declared classes `int` (decimal digits, converted
by the `Int(int(i))` parser action), `string` (quotes stripped by the
`String(s[1:-1])` action), `ident`, and the grammar's fixed symbols. -/
inductive Token where
  | intTok (n : ℕ)
  | strTok (s : List Char)
  | identTok (x : String)
  | sym (s : String)
deriving DecidableEq, Repr

/-- The grammar's fixed symbols and keywords, in order of appearance. -/
def inlineToks : List String :=
  ["print", ";", "=", "\x7b", "\x7d", "if", "(", ")", "while", "def", ",",
   "or", "and", "not", "[", "]", "==", "<", ">", "+", "-", "*", "/"]

/-- Drop `pre` from the front of `cs`, or fail. -/
def dropPrefixChars : List Char → List Char → Option (List Char)
  | [], cs => some cs
  | _ :: _, [] => none
  | p :: ps, c :: cs => if p = c then dropPrefixChars ps cs else none

/-- Match the first fixed symbol that fits (`=` only when not followed by
another `=`, per the grammar's `'=(?!=)'`). -/
def matchSymFrom : List String → List Char → Option (String × List Char)
  | [], _ => none
  | t :: ts, cs =>
    if t = "=" then
      match cs with
      | '=' :: rest =>
        if rest.head? = some '=' then matchSymFrom ts cs else some ("=", rest)
      | _ => matchSymFrom ts cs
    else
      match dropPrefixChars t.data cs with
      | some rest => some (t, rest)
      | none => matchSymFrom ts cs

/-- Digit-string value (the `int(i)` conversion). -/
def digitsToNat (ds : List Char) : ℕ :=
  ds.foldl (fun n d => 10 * n + (d.toNat - '0'.toNat)) 0

/-- Is this character allowed to continue an identifier (`\w`)? -/
def isIdentChar (c : Char) : Bool := c.isAlpha ∨ c.isDigit ∨ c = '_'

/-- Scan one token at the current position: fixed symbols first, then the
declared classes `int` (`\d+`), `string` (`"[^"]*"`), `ident`
(`[a-zA-Z_]\w*`); no match is a lexical failure. -/
def nextToken (cs : List Char) : Option (Token × List Char) :=
  match matchSymFrom inlineToks cs with
  | some (t, rest) => some (.sym t, rest)
  | none =>
    match cs with
    | [] => none
    | c :: rest =>
      if c.isDigit then
        some (.intTok (digitsToNat (c :: rest.takeWhile Char.isDigit)),
              rest.dropWhile Char.isDigit)
      else if c = '"' then
        match rest.dropWhile (fun d => d ≠ '"') with
        | '"' :: rest' => some (.strTok (rest.takeWhile (fun d => d ≠ '"')), rest')
        | _ => none
      else if c.isAlpha ∨ c = '_' then
        some (.identTok ⟨c :: rest.takeWhile isIdentChar⟩,
              rest.dropWhile isIdentChar)
      else none

/-- Discard separators: whitespace runs (`\s+`) and comments (`#.*`). -/
def skipSep : ℕ → List Char → List Char
  | 0, cs => cs
  | _ + 1, [] => []
  | f + 1, c :: cs =>
    if c.isWhitespace then skipSep f cs
    else if c = '#' then skipSep f (cs.dropWhile (fun d => d ≠ '\n'))
    else c :: cs

/-- Tokenize the whole input; `none` is a lexical failure. -/
def tokenize : ℕ → List Char → Option (List Token)
  | 0, cs => if cs.isEmpty then some [] else none
  | f + 1, cs =>
    match skipSep (f + 1) cs with
    | [] => some []
    | c :: cs' =>
      match nextToken (c :: cs') with
      | some (t, rest) =>
        match tokenize f rest with
        | some ts => some (t :: ts)
        | none => none
      | none => none

/-- Expect one fixed symbol. -/
def expectSym (s : String) : List Token → Option (List Token)
  | .sym t :: rest => if t = s then some rest else none
  | _ => none

/-- The `(',' IDENT)*` loop (accumulating, as the grammar action appends). -/
def parseParamsLoop : List Token → List String → List String × List Token
  | .sym "," :: .identTok x :: rest, acc => parseParamsLoop rest (acc ++ [x])
  | toks, acc => (acc, toks)

/-- `[IDENT (',' IDENT)*]?`: the parameter list of a `def`. -/
def parseParamsOpt : List Token → List String × List Token
  | .identTok x :: rest => parseParamsLoop rest [x]
  | toks => ([], toks)

mutual

/-- The `Stmt` rule: its seven alternatives tried in source order
(`print`, assignment, block, `if`, `while`, `def`, call). -/
def parseStmt : ℕ → List Token → Option (Stmt × List Token)
  | 0, _ => none
  | f + 1, toks =>
    match
      (match toks with
       | .sym "print" :: r1 =>
         match parseExp f r1 with
         | some (e, r2) =>
           match expectSym ";" r2 with
           | some r3 => some (Stmt.print e, r3)
           | none => none
         | none => none
       | _ => none) with
    | some r => some r
    | none =>
    match
      (match parseExp f toks with
       | some (l, r1) =>
         match expectSym "=" r1 with
         | some r2 =>
           match parseExp f r2 with
           | some (rhs, r3) =>
             match expectSym ";" r3 with
             | some r4 => some (Stmt.assign l rhs, r4)
             | none => none
           | none => none
         | none => none
       | none => none) with
    | some r => some r
    | none =>
    match
      (match expectSym "\x7b" toks with
       | some r1 =>
         match parseStmtStar f r1 with
         | (ss, r2) =>
           match expectSym "\x7d" r2 with
           | some r3 => some (Stmt.block ss, r3)
           | none => none
       | none => none) with
    | some r => some r
    | none =>
    match
      (match toks with
       | .sym "if" :: r1 =>
         match expectSym "(" r1 with
         | some r2 =>
           match parseExp f r2 with
           | some (c, r3) =>
             match expectSym ")" r3 with
             | some r4 =>
               match parseStmt f r4 with
               | some (s, r5) => some (Stmt.ifS c s, r5)
               | none => none
             | none => none
           | none => none
         | none => none
       | _ => none) with
    | some r => some r
    | none =>
    match
      (match toks with
       | .sym "while" :: r1 =>
         match expectSym "(" r1 with
         | some r2 =>
           match parseExp f r2 with
           | some (c, r3) =>
             match expectSym ")" r3 with
             | some r4 =>
               match parseStmt f r4 with
               | some (s, r5) => some (Stmt.whileS c s, r5)
               | none => none
             | none => none
           | none => none
         | none => none
       | _ => none) with
    | some r => some r
    | none =>
    match
      (match toks with
       | .sym "def" :: .identTok fn :: r1 =>
         match expectSym "(" r1 with
         | some r2 =>
           match parseParamsOpt r2 with
           | (ps, r3) =>
             match expectSym ")" r3 with
             | some r4 =>
               match parseStmt f r4 with
               | some (b, r5) => some (Stmt.defS fn ps b, r5)
               | none => none
             | none => none
         | none => none
       | _ => none) with
    | some r => some r
    | none =>
      match toks with
      | .identTok fn :: r1 =>
        match expectSym "(" r1 with
        | some r2 =>
          match parseArgsOpt f r2 with
          | some (args, r3) =>
            match expectSym ")" r3 with
            | some r4 =>
              match expectSym ";" r4 with
              | some r5 => some (Stmt.call fn args, r5)
              | none => none
            | none => none
          | none => none
        | none => none
      | _ => none

/-- `( Stmt )*` inside a block: greedy, stopping at the first failure. -/
def parseStmtStar : ℕ → List Token → List Stmt × List Token
  | 0, toks => ([], toks)
  | f + 1, toks =>
    match parseStmt f toks with
    | some (s, r1) =>
      match parseStmtStar f r1 with
      | (ss, r2) => (s :: ss, r2)
    | none => ([], toks)

/-- `Exp := Or`. -/
def parseExp : ℕ → List Token → Option (Exp × List Token)
  | 0, _ => none
  | f + 1, toks => parseOr f toks

/-- `Or := And ('or' And)*`. -/
def parseOr : ℕ → List Token → Option (Exp × List Token)
  | 0, _ => none
  | f + 1, toks =>
    match parseAnd f toks with
    | some (e, r) => parseOrLoop f e r
    | none => none

/-- The `('or' And)*` loop. -/
def parseOrLoop : ℕ → Exp → List Token → Option (Exp × List Token)
  | 0, e, toks => some (e, toks)
  | f + 1, e, toks =>
    match toks with
    | .sym "or" :: r1 =>
      match parseAnd f r1 with
      | some (e2, r2) => parseOrLoop f (.binOp e .lor e2) r2
      | none => some (e, toks)
    | _ => some (e, toks)

/-- `And := Not ('and' Not)*`. -/
def parseAnd : ℕ → List Token → Option (Exp × List Token)
  | 0, _ => none
  | f + 1, toks =>
    match parseNot f toks with
    | some (e, r) => parseAndLoop f e r
    | none => none

/-- The `('and' Not)*` loop. -/
def parseAndLoop : ℕ → Exp → List Token → Option (Exp × List Token)
  | 0, e, toks => some (e, toks)
  | f + 1, e, toks =>
    match toks with
    | .sym "and" :: r1 =>
      match parseNot f r1 with
      | some (e2, r2) => parseAndLoop f (.binOp e .land e2) r2
      | none => some (e, toks)
    | _ => some (e, toks)

/-- `Not := 'not' Not | Cmp`. -/
def parseNot : ℕ → List Token → Option (Exp × List Token)
  | 0, _ => none
  | f + 1, toks =>
    match toks with
    | .sym "not" :: r1 =>
      match parseNot f r1 with
      | some (e, r2) => some (.notOp e, r2)
      | none => parseCmp f toks
    | _ => parseCmp f toks

/-- `Cmp := Add (CmpOp Add)*`. -/
def parseCmp : ℕ → List Token → Option (Exp × List Token)
  | 0, _ => none
  | f + 1, toks =>
    match parseAdd f toks with
    | some (e, r) => parseCmpLoop f e r
    | none => none

/-- The `(CmpOp Add)*` loop (`==`, `<`, `>`). -/
def parseCmpLoop : ℕ → Exp → List Token → Option (Exp × List Token)
  | 0, e, toks => some (e, toks)
  | f + 1, e, toks =>
    match toks with
    | .sym t :: r1 =>
      if t = "==" ∨ t = "<" ∨ t = ">" then
        match parseAdd f r1 with
        | some (e2, r2) =>
          parseCmpLoop f (.binOp e (if t = "==" then .eq else if t = "<" then .lt else .gt) e2) r2
        | none => some (e, toks)
      else some (e, toks)
    | _ => some (e, toks)

/-- `Add := Mul (AddOp Mul)*`. -/
def parseAdd : ℕ → List Token → Option (Exp × List Token)
  | 0, _ => none
  | f + 1, toks =>
    match parseMul f toks with
    | some (e, r) => parseAddLoop f e r
    | none => none

/-- The `(AddOp Mul)*` loop (`+`, `-`). -/
def parseAddLoop : ℕ → Exp → List Token → Option (Exp × List Token)
  | 0, e, toks => some (e, toks)
  | f + 1, e, toks =>
    match toks with
    | .sym t :: r1 =>
      if t = "+" ∨ t = "-" then
        match parseMul f r1 with
        | some (e2, r2) =>
          parseAddLoop f (.binOp e (if t = "+" then .add else .sub) e2) r2
        | none => some (e, toks)
      else some (e, toks)
    | _ => some (e, toks)

/-- `Mul := Idx (MulOp Idx)*`. -/
def parseMul : ℕ → List Token → Option (Exp × List Token)
  | 0, _ => none
  | f + 1, toks =>
    match parseIdx f toks with
    | some (e, r) => parseMulLoop f e r
    | none => none

/-- The `(MulOp Idx)*` loop (`*`, `/`). -/
def parseMulLoop : ℕ → Exp → List Token → Option (Exp × List Token)
  | 0, e, toks => some (e, toks)
  | f + 1, e, toks =>
    match toks with
    | .sym t :: r1 =>
      if t = "*" ∨ t = "/" then
        match parseIdx f r1 with
        | some (e2, r2) =>
          parseMulLoop f (.binOp e (if t = "*" then .mul else .div) e2) r2
        | none => some (e, toks)
      else some (e, toks)
    | _ => some (e, toks)

/-- `Idx := Atom ('[' Exp ']')*`. -/
def parseIdx : ℕ → List Token → Option (Exp × List Token)
  | 0, _ => none
  | f + 1, toks =>
    match parseAtom f toks with
    | some (e, r) => parseIdxLoop f e r
    | none => none

/-- The `('[' Exp ']')*` loop. -/
def parseIdxLoop : ℕ → Exp → List Token → Option (Exp × List Token)
  | 0, e, toks => some (e, toks)
  | f + 1, e, toks =>
    match toks with
    | .sym "[" :: r1 =>
      match parseExp f r1 with
      | some (i, r2) =>
        match expectSym "]" r2 with
        | some r3 => parseIdxLoop f (.index e i) r3
        | none => some (e, toks)
      | none => some (e, toks)
    | _ => some (e, toks)

/-- `Atom := '(' Exp ')' | int | string | '[' [Exp (',' Exp)*] ']' | ident`. -/
def parseAtom : ℕ → List Token → Option (Exp × List Token)
  | 0, _ => none
  | f + 1, toks =>
    match toks with
    | .sym "(" :: r1 =>
      match parseExp f r1 with
      | some (e, r2) =>
        match expectSym ")" r2 with
        | some r3 => some (e, r3)
        | none => none
      | none => none
    | .intTok n :: r1 => some (.intLit (n : ℤ), r1)
    | .strTok s :: r1 => some (.strLit s, r1)
    | .sym "[" :: r1 =>
      match parseArgsOpt f r1 with
      | some (es, r2) =>
        match expectSym "]" r2 with
        | some r3 => some (.arrayLit es, r3)
        | none => none
      | none => none
    | .identTok x :: r1 => some (.var x, r1)
    | _ => none

/-- `[Exp (',' Exp)*]?`: a possibly empty comma-separated expression list
(array literals and call arguments). -/
def parseArgsOpt : ℕ → List Token → Option (List Exp × List Token)
  | 0, toks => some ([], toks)
  | f + 1, toks =>
    match parseExp f toks with
    | some (e, r1) =>
      match parseArgsLoop f r1 with
      | (es, r2) => some (e :: es, r2)
    | none => some ([], toks)

/-- The `(',' Exp)*` loop. -/
def parseArgsLoop : ℕ → List Token → List Exp × List Token
  | 0, toks => ([], toks)
  | f + 1, toks =>
    match toks with
    | .sym "," :: r1 =>
      match parseExp f r1 with
      | some (e, r2) =>
        match parseArgsLoop f r2 with
        | (es, r3) => (e :: es, r3)
      | none => ([], toks)
    | _ => ([], toks)

end

/-- `parse(code)`: tokenize, parse one `Stmt` (`START := Stmt`), and
require the whole token stream consumed; `none` is the parsing-failure
category (`tpg.Error`). -/
def parseProgram (fuel : ℕ) (src : String) : Option Stmt :=
  match tokenize src.data.length src.data with
  | none => none
  | some toks =>
    match parseStmt fuel toks with
    | some (s, rest) => if rest.isEmpty then some s else none
    | none => none

/-! ### Auxiliary definitions used by the verification statements -/

instance : Inhabited Exp := ⟨.intLit 0⟩

instance : Inhabited Stmt := ⟨.print (.intLit 0)⟩

/-- Following the spec's words (§4.4), for comparison with the store
`Call.exec` actually builds: a copy of the caller's local store, then one
entry per declared parameter name bound, in declaration order, to the
corresponding evaluated argument value. -/
def specCalleeStore (L : VEnv) : List String → List Value → VEnv
  | x :: xs, v :: vs => specCalleeStore (insertEnv L x v) xs vs
  | _, _ => L

/-- The source's `isinstance(node, Var)` test. -/
def isVarNode : Exp → Bool
  | .var _ => true
  | _ => false

/-- The source's `isinstance(node, Index)` test. -/
def isIndexNode : Exp → Bool
  | .index _ _ => true
  | _ => false

/-- The aliasing scenario of the spec (§3, §8):
`a = [1,2,3]; b = a; b[0] = 9; print a[0];`. -/
def progAlias : Stmt := .block
  [ .assign (.var "a") (.arrayLit [.intLit 1, .intLit 2, .intLit 3])
  , .assign (.var "b") (.var "a")
  , .assign (.index (.var "b") (.intLit 0)) (.intLit 9)
  , .print (.index (.var "a") (.intLit 0)) ]

/-- A duplicate procedure definition hidden in dead code:
`{ def f() print 1; if (0) def f(x) print 2; }`. -/
def progDupDef : Stmt := .block
  [ .defS "f" [] (.print (.intLit 1))
  , .ifS (.intLit 0) (.defS "f" ["x"] (.print (.intLit 2))) ]

/-- A call with too few arguments: `{ def f(x) print x; f(); }`. -/
def progArity : Stmt := .block
  [ .defS "f" ["x"] (.print (.var "x"))
  , .call "f" [] ]

/-- Indexed write past the end: `{ a = [1,2]; a[5] = 3; }` (spec §8). -/
def progGrow : Stmt := .block
  [ .assign (.var "a") (.arrayLit [.intLit 1, .intLit 2])
  , .assign (.index (.var "a") (.intLit 5)) (.intLit 3) ]

/-- In-place write into a Text value: `{ a = "ab"; a[0] = "c"; }`. -/
def progTextWrite : Stmt := .block
  [ .assign (.var "a") (.strLit ['a', 'b'])
  , .assign (.index (.var "a") (.intLit 0)) (.strLit ['c']) ]

/-- The end-to-end loop source of spec §8, exactly as written there. -/
def srcLoop : String := "i = 0; while (i < 3) \x7b print i; i = i + 1; \x7d"

/-- The same statements wrapped in one block, making them a single `Stmt`. -/
def srcLoopBlock : String :=
  "\x7b i = 0; while (i < 3) \x7b print i; i = i + 1; \x7d \x7d"

/-- The AST of `srcLoopBlock`. -/
def progLoop : Stmt := .block
  [ .assign (.var "i") (.intLit 0)
  , .whileS (.binOp (.var "i") .lt (.intLit 3)) (.block
      [ .print (.var "i")
      , .assign (.var "i") (.binOp (.var "i") .add (.intLit 1)) ]) ]

/-! ### Helper lemmas

Properties of the float-division model, the registration pass, and the
stores, shared by the claim theorems below. -/

theorem log2fuel_le : ∀ f n, 1 ≤ n → n ≤ f → 2 ^ log2fuel f n ≤ n := by
  intro f
  induction f with
  | zero => intro n h1 h2 ; omega
  | succ f ih =>
    intro n h1 h2
    rw [log2fuel]
    by_cases hn : n < 2
    · simp [hn] ; omega
    · simp [hn]
      have hhalf1 : 1 ≤ n / 2 := by omega
      have hhalf2 : n / 2 ≤ f := by omega
      have := ih (n / 2) hhalf1 hhalf2
      have h2n : 2 ^ (log2fuel f (n / 2) + 1) = 2 * 2 ^ log2fuel f (n / 2) := by ring
      rw [h2n]
      omega

theorem log2n_le (n : ℕ) (h : 1 ≤ n) : 2 ^ log2n n ≤ n :=
  log2fuel_le n n h le_rfl

theorem scaleUp_spec : ∀ f cur d, d ≤ cur * 2 ^ f → d ≤ cur * 2 ^ scaleUp f cur d := by
  intro f
  induction f with
  | zero => intro cur d h ; simpa [scaleUp] using h
  | succ f ih =>
    intro cur d h
    rw [scaleUp]
    by_cases hc : d ≤ cur
    · simp [hc]
    · simp [hc]
      have h' : d ≤ 2 * cur * 2 ^ f := by
        calc d ≤ cur * 2 ^ (f + 1) := h
        _ = 2 * cur * 2 ^ f := by ring
      have := ih (2 * cur) d h'
      calc d ≤ 2 * cur * 2 ^ scaleUp f (2 * cur) d := this
      _ = cur * 2 ^ (scaleUp f (2 * cur) d + 1) := by ring

theorem flog2_le52 (n d : ℕ) (hd : 1 ≤ d) (hsize : n < 2 ^ 53) :
    flog2 n d ≤ 52 := by
  rw [flog2]
  by_cases hdn : d ≤ n
  · simp [hdn]
    by_contra hlt
    push_neg at hlt
    have h1 : 1 ≤ n / d := (Nat.one_le_div_iff (by omega)).2 hdn
    have h2 : 2 ^ log2n (n / d) ≤ n / d := log2n_le _ h1
    have h3 : n / d ≤ n := Nat.div_le_self n d
    have h4 : (53 : ℕ) ≤ log2n (n / d) := by exact_mod_cast hlt
    have h5 : (2 : ℕ) ^ 53 ≤ 2 ^ log2n (n / d) := Nat.pow_le_pow_right (by omega) h4
    omega
  · simp [hdn]
    omega

theorem flog2_d_lt (n d : ℕ) (hn : 1 ≤ n) (hd : 1 ≤ d) (hsize : n < 2 ^ 53) :
    d < 2 * 2 ^ (52 - flog2 n d).toNat := by
  rw [flog2]
  by_cases hdn : d ≤ n
  · simp [hdn]
    set l := log2n (n / d) with hl
    have h1 : 1 ≤ n / d := (Nat.one_le_div_iff (by omega)).2 hdn
    have h2 : 2 ^ l ≤ n / d := log2n_le _ h1
    have hle : l ≤ 52 := by
      by_contra hlt
      push_neg at hlt
      have h3 : (2:ℕ) ^ 53 ≤ 2 ^ l := Nat.pow_le_pow_right (by omega) (by omega)
      have h4 : n / d ≤ n := Nat.div_le_self n d
      omega
    -- d * 2^l ≤ d * (n/d) ≤ n < 2^53 = 2^l * 2^(53-l)
    have h5 : d * 2 ^ l ≤ n := by
      calc d * 2 ^ l ≤ d * (n / d) := Nat.mul_le_mul_left d h2
      _ ≤ n := Nat.mul_div_le n d
    have h6 : d * 2 ^ l < 2 ^ 53 := by omega
    have h7 : (2:ℕ) ^ 53 = 2 ^ l * (2 * 2 ^ (52 - l)) := by
      rw [← pow_succ']
      rw [← pow_add]
      congr 1
      omega
    rw [h7] at h6
    have h8 : 0 < (2:ℕ) ^ l := Nat.pos_pow_of_pos l (by omega)
    have h6' : d * 2 ^ l < (2 * 2 ^ (52 - l)) * 2 ^ l := by
      calc d * 2 ^ l < 2 ^ l * (2 * 2 ^ (52 - l)) := h6
      _ = (2 * 2 ^ (52 - l)) * 2 ^ l := by ring
    exact Nat.lt_of_mul_lt_mul_right h6'
  · simp [hdn]
    push_neg at hdn
    set j := scaleUp d (2 * n) d with hj
    have hfuel : d ≤ 2 * n * 2 ^ d := by
      have : d ≤ 2 ^ d := Nat.le_of_lt (Nat.lt_two_pow d)
      have h2n : 1 ≤ 2 * n := by omega
      calc d ≤ 2 ^ d := this
      _ = 1 * 2 ^ d := (one_mul _).symm
      _ ≤ 2 * n * 2 ^ d := Nat.mul_le_mul_right _ h2n
    have hspec : d ≤ 2 * n * 2 ^ j := scaleUp_spec d (2 * n) d hfuel
    have htn : ((52 : ℤ) - (-1 + -(j : ℤ))).toNat = 53 + j := by omega
    rw [htn]
    have : 2 * n * 2 ^ j < 2 * 2 ^ (53 + j) := by
      have hn53 : n < 2 ^ 53 := hsize
      calc 2 * n * 2 ^ j < 2 * 2 ^ 53 * 2 ^ j := by
            have hp := Nat.pos_pow_of_pos j (show 0 < 2 by omega)
            exact mul_lt_mul_of_pos_right (by omega) hp
      _ = 2 * 2 ^ (53 + j) := by rw [pow_add] ; ring
    omega

theorem rnd_exact (N D : ℕ) (h : D ∣ N) : rndHalfEvenNat N D = N / D := by
  rw [rndHalfEvenNat]
  have hr : N % D = 0 := Nat.mod_eq_zero_of_dvd h
  by_cases hD : D = 0
  · subst hD
    simp only [Nat.mod_zero] at hr
    subst hr
    simp
  · simp [hr, Nat.pos_of_ne_zero hD]

theorem rnd_close (N D : ℕ) (hD : 1 ≤ D) :
    2 * N ≤ 2 * rndHalfEvenNat N D * D + D ∧
    2 * rndHalfEvenNat N D * D ≤ 2 * N + D := by
  have hdm := Nat.div_add_mod N D
  rw [rndHalfEvenNat]
  set q := N / D with hq
  set r := N % D with hr
  by_cases h1 : 2 * r < D
  · simp [h1]
    constructor
    · nlinarith
    · nlinarith
  · by_cases h2 : D < 2 * r
    · have hrlt : r < D := Nat.mod_lt _ (by omega)
      simp [h1, h2]
      constructor
      · nlinarith
      · nlinarith
    · by_cases h3 : q % 2 = 0
      · simp [h1, h2, h3]
        constructor
        · nlinarith
        · nlinarith
      · simp [h1, h2, h3]
        have hrlt : r < D := Nat.mod_lt _ (by omega)
        constructor
        · nlinarith
        · nlinarith

theorem rnd_le (N D : ℕ) : rndHalfEvenNat N D ≤ N / D + 1 := by
  rw [rndHalfEvenNat]
  by_cases h1 : 2 * (N % D) < D
  · simp [h1]
  · by_cases h2 : D < 2 * (N % D)
    · simp [h1, h2]
    · by_cases h3 : N / D % 2 = 0
      · simp [h1, h2, h3]
      · simp [h1, h2, h3]

theorem mant_div_eq (n d p : ℕ) (_hn : 1 ≤ n) (hd : 1 ≤ d) (hdp : d < 2 * 2 ^ p) :
    rndHalfEvenNat (n * 2 ^ p) d / 2 ^ p = n / d := by
  have hp : 0 < (2:ℕ) ^ p := Nat.pos_pow_of_pos p (by omega)
  by_cases hr : n % d = 0
  · have hdvd : d ∣ n := Nat.dvd_of_mod_eq_zero hr
    have hdvd' : d ∣ n * 2 ^ p := Dvd.dvd.mul_right hdvd _
    rw [rnd_exact _ _ hdvd']
    rw [Nat.mul_comm n (2 ^ p), Nat.mul_div_assoc _ hdvd, Nat.mul_comm,
      Nat.mul_div_cancel _ hp]
  · set t := n / d with ht
    have hdm : d * t + n % d = n := Nat.div_add_mod n d
    have hrlt : n % d < d := Nat.mod_lt _ (by omega)
    obtain ⟨c1, c2⟩ := rnd_close (n * 2 ^ p) d hd
    set M := rndHalfEvenNat (n * 2 ^ p) d with hM
    have hlow : t * 2 ^ p ≤ M := by
      by_contra hc
      push_neg at hc
      have s1 : 2 * (M + 1) * d ≤ 2 * (t * 2 ^ p) * d :=
        Nat.mul_le_mul_right d (by omega)
      have htd : t * d ≤ n := Nat.div_mul_le_self n d
      have s2 : 2 * (t * 2 ^ p) * d ≤ 2 * (n * 2 ^ p) := by
        have h9 : t * d * 2 ^ p ≤ n * 2 ^ p := Nat.mul_le_mul_right _ htd
        nlinarith [h9]
      nlinarith [s1, s2, c1, hd]
    have hhigh : M < (t + 1) * 2 ^ p := by
      by_contra hc
      push_neg at hc
      have s1 : 2 * ((t + 1) * 2 ^ p) * d ≤ 2 * M * d :=
        Nat.mul_le_mul_right d (by nlinarith [hc])
      have htd : n < (t + 1) * d := by nlinarith [hdm, hrlt]
      have s2 : 2 * (n * 2 ^ p) + d < 2 * ((t + 1) * 2 ^ p) * d := by
        have h9 : (n + 1) * 2 ^ p ≤ (t + 1) * d * 2 ^ p :=
          Nat.mul_le_mul_right _ (by omega)
        nlinarith [h9, hdp, hp]
      nlinarith [c2, s1, s2]
    exact Nat.div_eq_of_lt_le hlow hhigh

theorem mant_lt (n d p : ℕ) (_hd : 1 ≤ d) (hn53 : n < 2 ^ 53) :
    rndHalfEvenNat (n * 2 ^ p) d < 2 ^ (1024 + p) := by
  have h1 : rndHalfEvenNat (n * 2 ^ p) d ≤ n * 2 ^ p / d + 1 := rnd_le _ _
  have h2 : n * 2 ^ p / d ≤ n * 2 ^ p := Nat.div_le_self _ _
  have hp : 0 < (2:ℕ) ^ p := Nat.pos_pow_of_pos p (by omega)
  have h3 : n * 2 ^ p + 1 ≤ 2 ^ 53 * 2 ^ p := by nlinarith
  have h4 : (2:ℕ) ^ 53 * 2 ^ p < 2 ^ (1024 + p) := by
    rw [pow_add]
    have : (2:ℕ) ^ 53 < 2 ^ 1024 := Nat.pow_lt_pow_right (by omega) (by omega)
    exact mul_lt_mul_of_pos_right this hp
  omega

theorem floatMant_eq_of_le52 (n d : ℕ) (he : flog2 n d ≤ 52) :
    floatMant n d = rndHalfEvenNat (n * 2 ^ (52 - flog2 n d).toNat) d := by
  rw [floatMant]
  by_cases h : (52:ℤ) ≤ flog2 n d
  · have he52 : flog2 n d = 52 := le_antisymm he h
    simp [h, he52]
  · simp [h]

theorem sign_mul_div_eq_tdiv (a b : ℤ) :
    (if (0 ≤ a ∧ 0 ≤ b) ∨ (a < 0 ∧ b < 0) then (1:ℤ) else -1) *
      ((a.natAbs / b.natAbs : ℕ) : ℤ) = a.tdiv b := by
  rcases le_or_lt 0 a with hA | hA <;> rcases le_or_lt 0 b with hB | hB
  · have ha' : a = (a.natAbs : ℤ) := (Int.natAbs_of_nonneg hA).symm
    have hb' : b = (b.natAbs : ℤ) := (Int.natAbs_of_nonneg hB).symm
    rw [if_pos (Or.inl ⟨hA, hB⟩), one_mul]
    conv_rhs => rw [ha', hb']
    rw [← Int.ofNat_tdiv]
  · have ha' : a = (a.natAbs : ℤ) := (Int.natAbs_of_nonneg hA).symm
    have hb' : b = -(b.natAbs : ℤ) := by
      omega
    rw [if_neg (by omega), neg_one_mul]
    conv_rhs => rw [ha', hb']
    rw [Int.tdiv_neg, ← Int.ofNat_tdiv]
  · have ha' : a = -(a.natAbs : ℤ) := by
      omega
    have hb' : b = (b.natAbs : ℤ) := (Int.natAbs_of_nonneg hB).symm
    rw [if_neg (by omega), neg_one_mul]
    conv_rhs => rw [ha', hb']
    rw [Int.neg_tdiv, ← Int.ofNat_tdiv]
  · have ha' : a = -(a.natAbs : ℤ) := by
      omega
    have hb' : b = -(b.natAbs : ℤ) := by
      omega
    rw [if_pos (Or.inr ⟨hA, hB⟩), one_mul]
    conv_rhs => rw [ha', hb']
    rw [Int.neg_tdiv_neg, ← Int.ofNat_tdiv]

theorem pyTrueDivInt_of_le52 (a b : ℤ) (ha0 : a ≠ 0)
    (he : flog2 a.natAbs b.natAbs ≤ 52)
    (hnov : rndHalfEvenNat (a.natAbs * 2 ^ (52 - flog2 a.natAbs b.natAbs).toNat) b.natAbs
            < 2 ^ (1024 + (52 - flog2 a.natAbs b.natAbs).toNat)) :
    pyTrueDivInt a b = .ok ((if (0 ≤ a ∧ 0 ≤ b) ∨ (a < 0 ∧ b < 0) then (1:ℤ) else -1) *
      ((rndHalfEvenNat (a.natAbs * 2 ^ (52 - flog2 a.natAbs b.natAbs).toNat) b.natAbs
        / 2 ^ (52 - flog2 a.natAbs b.natAbs).toNat : ℕ) : ℤ)) := by
  simp only [pyTrueDivInt, floatMant, if_neg ha0]
  by_cases h52 : (52:ℤ) ≤ flog2 a.natAbs b.natAbs
  · have he52 : flog2 a.natAbs b.natAbs = 52 := le_antisymm he h52
    rw [he52] at hnov ⊢
    simp only [sub_self, Int.toNat_zero, pow_zero, mul_one, Nat.div_one] at hnov ⊢
    simp [hnov, Nat.not_le.mpr hnov]
  · simp only [if_neg h52]
    simp only [Nat.not_le.mpr hnov, if_false]

theorem pyTrueDivInt_eq_tdiv (a b : ℤ) (hb : b ≠ 0) (ha : a.natAbs < 2 ^ 53) :
    pyTrueDivInt a b = .ok (a.tdiv b) := by
  by_cases ha0 : a = 0
  · subst ha0
    simp [pyTrueDivInt]
  · have hn : 1 ≤ a.natAbs := Int.natAbs_pos.mpr ha0
    have hd : 1 ≤ b.natAbs := Int.natAbs_pos.mpr hb
    have he := flog2_le52 a.natAbs b.natAbs hd ha
    have hdp := flog2_d_lt a.natAbs b.natAbs hn hd ha
    have hnov := mant_lt a.natAbs b.natAbs (52 - flog2 a.natAbs b.natAbs).toNat hd ha
    rw [pyTrueDivInt_of_le52 a b ha0 he hnov]
    rw [mant_div_eq a.natAbs b.natAbs _ hn hd hdp]
    rw [sign_mul_div_eq_tdiv]

theorem lookupProc_append (P Q : ProcEnv) (x : String) :
    lookupProc (P ++ Q) x =
      match lookupProc P x with
      | some v => some v
      | none => lookupProc Q x := by
  induction P with
  | nil => simp [lookupProc]
  | cons kv rest ih =>
    obtain ⟨k, v⟩ := kv
    by_cases h : k = x
    · simp [lookupProc, h]
    · simp [lookupProc, h, ih]

theorem lookupProc_eq_none_iff (P : ProcEnv) (x : String) :
    lookupProc P x = none ↔ x ∉ P.map Prod.fst := by
  induction P with
  | nil => simp [lookupProc]
  | cons kv rest ih =>
    obtain ⟨k, v⟩ := kv
    by_cases h : k = x
    · subst h
      simp [lookupProc]
    · rw [lookupProc, if_neg h, List.map_cons, List.mem_cons, ih]
      constructor
      · intro hx hor
        rcases hor with h1 | h2
        · exact h h1.symm
        · exact hx h2
      · intro hx
        exact fun h2 => hx (Or.inr h2)

mutual

theorem defsOf_keys : ∀ s : Stmt, (defsOf s).map Prod.fst = defNames s
  | .print _ => rfl
  | .assign _ _ => rfl
  | .block ss => by rw [defsOf, defNames] ; exact defsOfList_keys ss
  | .ifS _ s => by rw [defsOf, defNames] ; exact defsOf_keys s
  | .whileS _ s => by rw [defsOf, defNames] ; exact defsOf_keys s
  | .defS n ps b => by rw [defsOf, defNames, List.map_cons, defsOf_keys b]
  | .call _ _ => rfl

theorem defsOfList_keys : ∀ ss : List Stmt, (defsOfList ss).map Prod.fst = defNamesList ss
  | [] => rfl
  | s :: ss => by
    rw [defsOfList, defNamesList, List.map_append, defsOf_keys s, defsOfList_keys ss]

end

mutual

theorem anlz_error_eval : ∀ (s : Stmt) (P : ProcEnv) (e : Err),
    anlzProcs s P = .error e → e = .evalError
  | .print _, _, _ => by intro h ; simp [anlzProcs] at h
  | .assign _ _, _, _ => by intro h ; simp [anlzProcs] at h
  | .block ss, P, e => by
    rw [anlzProcs]
    exact anlzList_error_eval ss P e
  | .ifS _ s, P, e => by
    rw [anlzProcs]
    exact anlz_error_eval s P e
  | .whileS _ s, P, e => by
    rw [anlzProcs]
    exact anlz_error_eval s P e
  | .defS n ps b, P, e => by
    rw [anlzProcs]
    by_cases h : (lookupProc P n).isSome
    · simp [h]
      intro he
      exact he.symm
    · simp [h]
      exact anlz_error_eval b _ e
  | .call _ _, _, _ => by intro h ; simp [anlzProcs] at h

theorem anlzList_error_eval : ∀ (ss : List Stmt) (P : ProcEnv) (e : Err),
    anlzProcsList ss P = .error e → e = .evalError
  | [], _, _ => by intro h ; simp [anlzProcsList] at h
  | s :: ss, P, e => by
    rw [anlzProcsList]
    intro h
    match hs : anlzProcs s P with
    | .ok P' =>
      rw [hs] at h
      exact anlzList_error_eval ss P' e h
    | .error e' =>
      rw [hs] at h
      cases h
      exact anlz_error_eval s P e hs

end

mutual

theorem anlz_ok_of : ∀ (s : Stmt) (P : ProcEnv), (defNames s).Nodup →
    (∀ x ∈ defNames s, lookupProc P x = none) →
    anlzProcs s P = .ok (P ++ defsOf s)
  | .print _, P => by intro _ _ ; simp [anlzProcs, defsOf]
  | .assign _ _, P => by intro _ _ ; simp [anlzProcs, defsOf]
  | .block ss, P => by
    intro h1 h2
    rw [anlzProcs, defsOf]
    exact anlzList_ok_of ss P h1 h2
  | .ifS _ s, P => by
    intro h1 h2
    rw [anlzProcs, defsOf]
    exact anlz_ok_of s P h1 h2
  | .whileS _ s, P => by
    intro h1 h2
    rw [anlzProcs, defsOf]
    exact anlz_ok_of s P h1 h2
  | .defS n ps b, P => by
    intro h1 h2
    rw [anlzProcs, defsOf]
    rw [defNames] at h1 h2
    have hn : lookupProc P n = none := h2 n (List.mem_cons_self n _)
    rw [hn]
    simp only [Option.isSome_none, Bool.false_eq_true, if_false]
    have hnodup : (defNames b).Nodup := (List.nodup_cons.mp h1).2
    have hnmem : n ∉ defNames b := (List.nodup_cons.mp h1).1
    have hrest : ∀ x ∈ defNames b, lookupProc (P ++ [(n, (ps, b))]) x = none := by
      intro x hx
      rw [lookupProc_append]
      rw [h2 x (List.mem_cons_of_mem _ hx)]
      have hxn : n ≠ x := fun he => hnmem (he ▸ hx)
      simp [lookupProc, hxn]
    have := anlz_ok_of b (P ++ [(n, (ps, b))]) hnodup hrest
    rw [this]
    simp
  | .call _ _, P => by intro _ _ ; simp [anlzProcs, defsOf]

theorem anlzList_ok_of : ∀ (ss : List Stmt) (P : ProcEnv), (defNamesList ss).Nodup →
    (∀ x ∈ defNamesList ss, lookupProc P x = none) →
    anlzProcsList ss P = .ok (P ++ defsOfList ss)
  | [], P => by intro _ _ ; simp [anlzProcsList, defsOfList]
  | s :: ss, P => by
    intro h1 h2
    rw [anlzProcsList, defsOfList]
    rw [defNamesList] at h1 h2
    have hsplit := List.nodup_append.mp h1
    have hs := anlz_ok_of s P hsplit.1 (fun x hx => h2 x (List.mem_append_left _ hx))
    rw [hs]
    change anlzProcsList ss (P ++ defsOf s) = _
    have hrest : ∀ x ∈ defNamesList ss, lookupProc (P ++ defsOf s) x = none := by
      intro x hx
      rw [lookupProc_append]
      rw [h2 x (List.mem_append_right _ hx)]
      have hxmem : x ∉ defNames s := fun hmem => hsplit.2.2 hmem hx
      have : lookupProc (defsOf s) x = none := by
        rw [lookupProc_eq_none_iff, defsOf_keys]
        exact hxmem
      rw [this]
    have := anlzList_ok_of ss (P ++ defsOf s) hsplit.2.1 hrest
    rw [this]
    simp

end

mutual

theorem anlz_ok_inv : ∀ (s : Stmt) (P P' : ProcEnv), anlzProcs s P = .ok P' →
    P' = P ++ defsOf s ∧ (defNames s).Nodup ∧
      ∀ x ∈ defNames s, lookupProc P x = none
  | .print _, P, P' => by
    intro h
    simp [anlzProcs] at h
    simp [defsOf, defNames, h.symm]
  | .assign _ _, P, P' => by
    intro h
    simp [anlzProcs] at h
    simp [defsOf, defNames, h.symm]
  | .block ss, P, P' => by
    rw [anlzProcs]
    intro h
    have := anlzList_ok_inv ss P P' h
    simpa [defsOf, defNames] using this
  | .ifS _ s, P, P' => by
    rw [anlzProcs]
    intro h
    have := anlz_ok_inv s P P' h
    simpa [defsOf, defNames] using this
  | .whileS _ s, P, P' => by
    rw [anlzProcs]
    intro h
    have := anlz_ok_inv s P P' h
    simpa [defsOf, defNames] using this
  | .defS n ps b, P, P' => by
    rw [anlzProcs]
    intro h
    by_cases hn : (lookupProc P n).isSome
    · rw [if_pos hn] at h
      cases h
    · rw [if_neg hn] at h
      obtain ⟨h1, h2, h3⟩ := anlz_ok_inv b (P ++ [(n, (ps, b))]) P' h
      have hnone : lookupProc P n = none := Option.not_isSome_iff_eq_none.mp hn
      have hnmem : n ∉ defNames b := by
        intro hmem
        have := h3 n hmem
        rw [lookupProc_append, hnone] at this
        simp [lookupProc] at this
      refine ⟨?_, ?_, ?_⟩
      · rw [h1, defsOf]
        simp
      · rw [defNames]
        exact List.nodup_cons.mpr ⟨hnmem, h2⟩
      · rw [defNames]
        intro x hx
        rcases List.mem_cons.mp hx with hx1 | hx2
        · exact hx1 ▸ hnone
        · have := h3 x hx2
          rw [lookupProc_append] at this
          match hpx : lookupProc P x with
          | none => rfl
          | some v => rw [hpx] at this ; cases this
  | .call _ _, P, P' => by
    intro h
    simp [anlzProcs] at h
    simp [defsOf, defNames, h.symm]

theorem anlzList_ok_inv : ∀ (ss : List Stmt) (P P' : ProcEnv), anlzProcsList ss P = .ok P' →
    P' = P ++ defsOfList ss ∧ (defNamesList ss).Nodup ∧
      ∀ x ∈ defNamesList ss, lookupProc P x = none
  | [], P, P' => by
    intro h
    simp [anlzProcsList] at h
    simp [defsOfList, defNamesList, h.symm]
  | s :: ss, P, P' => by
    rw [anlzProcsList]
    intro h
    match hs : anlzProcs s P with
    | .error e => rw [hs] at h ; cases h
    | .ok P1 =>
      rw [hs] at h
      obtain ⟨h1, h2, h3⟩ := anlz_ok_inv s P P1 hs
      obtain ⟨h4, h5, h6⟩ := anlzList_ok_inv ss P1 P' h
      have hdisj : (defNames s).Disjoint (defNamesList ss) := by
        intro x hxs hxl
        have := h6 x hxl
        rw [h1, lookupProc_append] at this
        have hxkey : x ∈ (defsOf s).map Prod.fst := by
          rw [defsOf_keys]
          exact hxs
        match hpx : lookupProc P x with
        | some v => rw [hpx] at this ; cases this
        | none =>
          rw [hpx] at this
          rw [lookupProc_eq_none_iff] at this
          exact this hxkey
      refine ⟨?_, ?_, ?_⟩
      · rw [h4, h1, defsOfList]
        simp
      · rw [defNamesList]
        exact List.nodup_append.mpr ⟨h2, h5, hdisj⟩
      · rw [defNamesList]
        intro x hx
        rcases List.mem_append.mp hx with hx1 | hx2
        · exact h3 x hx1
        · have := h6 x hx2
          rw [h1, lookupProc_append] at this
          match hpx : lookupProc P x with
          | none => rfl
          | some v => rw [hpx] at this ; cases this

end

theorem lookupProc_of_mem_nodup (P : ProcEnv) (n : String) (v : List String × Stmt)
    (hnd : (P.map Prod.fst).Nodup) (hmem : (n, v) ∈ P) : lookupProc P n = some v := by
  induction P with
  | nil => cases hmem
  | cons kv rest ih =>
    obtain ⟨k, w⟩ := kv
    rcases List.mem_cons.mp hmem with h1 | h2
    · cases h1
      simp [lookupProc]
    · have hk : k ≠ n := by
        intro he
        subst he
        have : k ∈ rest.map Prod.fst := List.mem_map.mpr ⟨(k, v), h2, rfl⟩
        exact (List.nodup_cons.mp hnd).1 this
      rw [lookupProc, if_neg hk]
      exact ih (List.nodup_cons.mp hnd).2 h2


theorem lookupEnv_insert (L : VEnv) (y x : String) (v : Value) :
    lookupEnv (insertEnv L y v) x = if y = x then some v else lookupEnv L x := by
  induction L with
  | nil => simp [insertEnv, lookupEnv]
  | cons kv rest ih =>
    obtain ⟨k, w⟩ := kv
    by_cases hky : k = y
    · subst hky
      by_cases hkx : k = x
      · subst hkx
        simp [insertEnv, lookupEnv]
      · simp [insertEnv, lookupEnv, hkx]
    · by_cases hkx : k = x
      · subst hkx
        simp [insertEnv, lookupEnv, hky, Ne.symm hky]
      · simp [insertEnv, lookupEnv, hky, hkx, ih]

theorem specCalleeStore_not_mem : ∀ (ps : List String) (vs : List Value) (L : VEnv)
    (x : String), x ∉ ps → lookupEnv (specCalleeStore L ps vs) x = lookupEnv L x
  | [], vs, L, x => by intro _ ; cases vs <;> rfl
  | p :: ps, [], L, x => by intro _ ; rfl
  | p :: ps, v :: vs, L, x => by
    intro hx
    rw [specCalleeStore]
    rw [specCalleeStore_not_mem ps vs _ x (fun h => hx (List.mem_cons_of_mem _ h))]
    rw [lookupEnv_insert]
    have : p ≠ x := fun h => hx (h ▸ List.mem_cons_self p ps)
    simp [this]

theorem specCalleeStore_param : ∀ (ps : List String) (vs : List Value) (L : VEnv)
    (i : ℕ), ps.Nodup → i < ps.length → i < vs.length →
    lookupEnv (specCalleeStore L ps vs) (ps.getD i "") = some (vs.getD i (.vint 0))
  | [], _, _, i => by intro _ hi _ ; simp at hi
  | p :: ps, [], L, i => by intro _ _ hv ; simp at hv
  | p :: ps, v :: vs, L, 0 => by
    intro hnd _ _
    simp only [List.getD_cons_zero]
    rw [specCalleeStore]
    rw [specCalleeStore_not_mem ps vs _ p (List.nodup_cons.mp hnd).1]
    rw [lookupEnv_insert]
    simp
  | p :: ps, v :: vs, L, i + 1 => by
    intro hnd hi hv
    simp only [List.getD_cons_succ]
    rw [specCalleeStore]
    exact specCalleeStore_param ps vs _ i (List.nodup_cons.mp hnd).2
      (by simpa using hi) (by simpa using hv)

theorem bindArgs_eq_spec : ∀ (ps : List String) (args : List Exp) (acc L G : VEnv)
    (h : Heap) (vs : List Value) (h2 : Heap), ps.length = args.length →
    evalExpList args L G h = .ok (vs, h2) →
    bindArgs ps args acc L G h = .ok (specCalleeStore acc ps vs, h2)
  | [], [], acc, L, G, h, vs, h2 => by
    intro _ hev
    rw [evalExpList] at hev
    cases hev
    rfl
  | [], a :: as, acc, L, G, h, vs, h2 => by intro hlen ; cases hlen
  | p :: ps, [], acc, L, G, h, vs, h2 => by intro hlen ; cases hlen
  | p :: ps, e :: es, acc, L, G, h, vs, h2 => by
    intro hlen hev
    rw [evalExpList] at hev
    rw [bindArgs]
    match he : evalExp e L G h with
    | .error err => rw [he] at hev ; cases hev
    | .ok (v, h1) =>
      rw [he] at hev
      simp only [] at hev ⊢
      match hes : evalExpList es L G h1 with
      | .error err => rw [hes] at hev ; cases hev
      | .ok (vs', h2') =>
        rw [hes] at hev
        simp only [] at hev
        cases hev
        rw [specCalleeStore]
        exact bindArgs_eq_spec ps es (insertEnv acc p v) L G h1 vs' h2
          (by simpa using hlen) hes

theorem evalExpList_length : ∀ (es : List Exp) (L G : VEnv) (h : Heap)
    (vs : List Value) (h2 : Heap), evalExpList es L G h = .ok (vs, h2) →
    vs.length = es.length
  | [], L, G, h, vs, h2 => by
    intro hev
    rw [evalExpList] at hev
    cases hev
    rfl
  | e :: es, L, G, h, vs, h2 => by
    intro hev
    rw [evalExpList] at hev
    match he : evalExp e L G h with
    | .error err => rw [he] at hev ; cases hev
    | .ok (v, h1) =>
      rw [he] at hev
      simp only [] at hev
      match hes : evalExpList es L G h1 with
      | .error err => rw [hes] at hev ; cases hev
      | .ok (vs', h2') =>
        rw [hes] at hev
        simp only [] at hev
        cases hev
        simp [evalExpList_length es L G h1 vs' h2 hes]

/-- Behaviour of the guarded indexed write when the resolved variable holds
a Sequence: in-bounds indices overwrite the heap cell in place, an index at
or past the length raises the guard's `EvalError`. -/
theorem execIndexAssign_seq (x : String) (ie rhs : Exp) (env L G : VEnv) (h : Heap)
    (k : ℤ) (w : Value) (a : ℕ)
    (hie : evalExp ie L G h = .ok (.vint k, h))
    (hrhs : evalExp rhs L G h = .ok (w, h))
    (hx : lookupEnv env x = some (.vref a)) :
    (0 ≤ k → k < (h.getD a []).length →
      execIndexAssign x ie rhs env L G h =
        .ok (w, h.set a ((h.getD a []).set k.toNat w)))
    ∧ (((h.getD a []).length : ℤ) ≤ k →
      execIndexAssign x ie rhs env L G h = .error .evalError) := by
  constructor
  · intro hk0 hklen
    rw [execIndexAssign]
    simp only [hie, hx, Option.getD_some, pyLen]
    rw [pyGeNat]
    rw [decide_eq_false (by omega)]
    simp only [hrhs, hie]
    rw [pySetItem, pyListSet]
    rw [if_pos hk0, if_pos (by exact_mod_cast hklen)]
  · intro hk
    rw [execIndexAssign]
    simp only [hie, hx, Option.getD_some, pyLen]
    rw [pyGeNat]
    rw [decide_eq_true hk]

/-- Behaviour of the guarded indexed write when the resolved variable holds
a Text value: the guard still applies, but a below-length write hits
Python's string immutability (`TypeError`). -/
theorem execIndexAssign_str (x : String) (ie rhs : Exp) (env L G : VEnv) (h : Heap)
    (k : ℤ) (w : Value) (s : List Char)
    (hie : evalExp ie L G h = .ok (.vint k, h))
    (hrhs : evalExp rhs L G h = .ok (w, h))
    (hx : lookupEnv env x = some (.vstr s)) :
    (k < s.length → execIndexAssign x ie rhs env L G h = .error .typeError)
    ∧ (((s.length : ℤ) ≤ k) → execIndexAssign x ie rhs env L G h = .error .evalError) := by
  constructor
  · intro hk
    rw [execIndexAssign]
    simp only [hie, hx, Option.getD_some, pyLen]
    rw [pyGeNat]
    rw [decide_eq_false (by omega)]
    simp only [hrhs, hie]
    rw [pySetItem]
    intro a hc
    cases hc
  · intro hk
    rw [execIndexAssign]
    simp only [hie, hx, Option.getD_some, pyLen]
    rw [pyGeNat]
    rw [decide_eq_true hk]

/-! ### The claims -/

set_option maxRecDepth 1000000

/-- C1: for every procedure call statement, the callee's body is executed
against a fresh local store built by first copying every entry of the
caller's current local store and then binding each declared parameter name,
in declaration order, to its corresponding argument value evaluated in the
caller's store (`specCalleeStore`); the body runs with `is_global = false`;
and the fresh store is discarded when the body finishes — the caller
continues with its own local store `L`, so no binding made inside the
callee is visible to the caller afterwards.  The second conjunct shows the
copy: every non-parameter name resolves in the fresh store exactly as in
the caller's; the third shows each parameter bound to its argument
value. -/
theorem call_runs_body_in_copied_store
    (fuel : ℕ) (P : ProcEnv) (f : String) (args : List Exp) (ps : List String)
    (body : Stmt) (L : VEnv) (isG : Bool) (st : St) (vs : List Value) (h2 : Heap)
    (hf : lookupProc P f = some (ps, body))
    (hargs : evalExpList args L st.genv st.heap = .ok (vs, h2))
    (hlen : ps.length = args.length) :
    (execStmt (fuel + 1) P (.call f args) L isG st =
      match execStmt fuel P body (specCalleeStore L ps vs) false { st with heap := h2 } with
      | .ok _ st' => .ok L st'
      | r => r)
    ∧ (∀ x, x ∉ ps → lookupEnv (specCalleeStore L ps vs) x = lookupEnv L x)
    ∧ (ps.Nodup → ∀ i, i < ps.length →
        lookupEnv (specCalleeStore L ps vs) (ps.getD i "") = some (vs.getD i (.vint 0))) := by
  have hbind := bindArgs_eq_spec ps args L L st.genv st.heap vs h2 hlen hargs
  refine ⟨?_, ?_, ?_⟩
  · rw [execStmt]
    simp only [hf, if_pos hlen, hbind]
  · intro x hx
    exact specCalleeStore_not_mem ps vs L x hx
  · intro hnd i hi
    have hvl : vs.length = args.length := evalExpList_length args L st.genv st.heap vs h2 hargs
    exact specCalleeStore_param ps vs L i hnd hi (by omega)

/-- Witness for C1: calling `f(9)` where `def f(x) print x;` from a caller
whose local store binds `y = 5` prints `9` and leaves the caller's local
store unchanged. -/
theorem call_runs_body_in_copied_store_witness :
    execStmt 3 [("f", (["x"], .print (.var "x")))] (.call "f" [.intLit 9])
      [("y", .vint 5)] true ⟨[], [], []⟩ = .ok [("y", .vint 5)] ⟨[], [], [['9']]⟩ := by
  have h := (call_runs_body_in_copied_store 2 [("f", (["x"], .print (.var "x")))] "f"
      [.intLit 9] ["x"] (.print (.var "x")) [("y", .vint 5)] true ⟨[], [], []⟩
      [.vint 9] [] rfl rfl rfl).1
  rw [h]
  rfl

/-- C2: a program containing two procedure definitions with the same name
anywhere (also in never-executed `if`/`while`/block bodies — `defNames`
collects every definition the registration walk visits) makes the
registration pass fail with an `EvalError`, and the driver then never
executes a statement (`runProgram` propagates the error without running
anything: no output line is produced and no store is created); with no
duplicate names, registration succeeds and the resulting procedure table
maps each defined name to its (parameter list, body) pair.  The table is
never modified during execution: `execStmt` only reads its `ProcEnv`
argument. -/
theorem registration_rejects_duplicates_else_builds_table (p : Stmt) (fuel : ℕ) :
    (¬ (defNames p).Nodup →
      anlzProcs p [] = .error .evalError ∧ runProgram fuel p = .err .evalError)
    ∧ ((defNames p).Nodup →
      anlzProcs p [] = .ok (defsOf p) ∧
        ∀ n ps b, (n, (ps, b)) ∈ defsOf p → lookupProc (defsOf p) n = some (ps, b)) := by
  constructor
  · intro hdup
    have herr : anlzProcs p [] = .error .evalError := by
      match hres : anlzProcs p [] with
      | .ok P' => exact absurd (anlz_ok_inv p [] P' hres).2.1 hdup
      | .error e =>
        have he := anlz_error_eval p [] e hres
        rw [he]
    refine ⟨herr, ?_⟩
    rw [runProgram, herr]
  · intro hnodup
    have hok : anlzProcs p [] = .ok (defsOf p) := by
      have := anlz_ok_of p [] hnodup (fun x _ => rfl)
      simpa using this
    refine ⟨hok, ?_⟩
    intro n ps b hmem
    apply lookupProc_of_mem_nodup
    · rw [defsOf_keys]
      exact hnodup
    · exact hmem

/-- Witness for C2: `progDupDef` (a duplicate `def f` inside a dead `if`)
fails during registration before anything executes, while `progArity`'s
single definition is registered and found in the table. -/
theorem registration_rejects_duplicates_else_builds_table_witness :
    (anlzProcs progDupDef [] = .error .evalError ∧
      runProgram 10 progDupDef = .err .evalError)
    ∧ (anlzProcs progArity [] = .ok (defsOf progArity) ∧
      lookupProc (defsOf progArity) "f" = some (["x"], .print (.var "x"))) := by
  constructor
  · exact (registration_rejects_duplicates_else_builds_table progDupDef 10).1 (by decide)
  · have h := (registration_rejects_duplicates_else_builds_table progArity 10).2 (by decide)
    refine ⟨h.1, ?_⟩
    apply h.2 "f" ["x"] (.print (.var "x"))
    rw [show defsOf progArity = [("f", (["x"], Stmt.print (.var "x")))] from rfl]
    exact List.mem_singleton.mpr rfl

/-- C3 (amended): evaluating the division `a / b` of two Integer values
yields the truncated-toward-zero quotient whenever `|a| < 2^53` (and `b ≠
0`), and `a / 0` always raises an `EvalError`; for operands at or beyond
`2^53` the result is the truncation of the IEEE 754 double rounding of
`a / b` — the source computes `int(v1 / v2)` through float true division —
which is no longer exact (see the counterexample). -/
theorem div_truncates_toward_zero_within_float_range
    (e1 e2 : Exp) (L G : VEnv) (h h1 h2 : Heap) (a b : ℤ)
    (he1 : evalExp e1 L G h = .ok (.vint a, h1))
    (he2 : evalExp e2 L G h1 = .ok (.vint b, h2)) :
    (b ≠ 0 → a.natAbs < 2 ^ 53 →
      evalExp (.binOp e1 .div e2) L G h = .ok (.vint (a.tdiv b), h2))
    ∧ (b = 0 → evalExp (.binOp e1 .div e2) L G h = .error .evalError) := by
  constructor
  · intro hb ha
    rw [evalExp]
    simp only [he1, he2]
    simp only [evalBinOp]
    rw [if_neg hb, pyTrueDivInt_eq_tdiv a b hb ha]
    rfl
  · intro hb
    subst hb
    rw [evalExp]
    simp only [he1, he2, evalBinOp]
    rfl

/-- Witness for C3: `7 / -2` evaluates to `-3` (truncation toward zero, not
flooring) and `7 / 0` raises an `EvalError`. -/
theorem div_truncates_toward_zero_within_float_range_witness :
    evalExp (.binOp (.intLit 7) .div (.intLit (-2))) [] [] [] = .ok (.vint (-3), []) ∧
    evalExp (.binOp (.intLit 7) .div (.intLit 0)) [] [] [] = .error .evalError := by
  constructor
  · exact (div_truncates_toward_zero_within_float_range (.intLit 7) (.intLit (-2))
      [] [] [] [] [] 7 (-2) rfl rfl).1 (by decide) (by decide)
  · exact (div_truncates_toward_zero_within_float_range (.intLit 7) (.intLit 0)
      [] [] [] [] [] 7 0 rfl rfl).2 rfl

/-- Counterexample to C3 as stated: division is not exact for all
arbitrary-range integers.  `(2^53 + 1) / 1` evaluates to `2^53` (the
nearest representable double, ties to even), not to the true quotient
`2^53 + 1`. -/
theorem div_inexact_at_2_pow_53_plus_one :
    evalExp (.binOp (.intLit (2 ^ 53 + 1)) .div (.intLit 1)) [] [] [] =
      .ok (.vint (2 ^ 53), []) ∧ (2 ^ 53 : ℤ) ≠ (2 ^ 53 + 1 : ℤ).tdiv 1 := by
  constructor
  · rfl
  · decide

/-- C4 (amended): a procedure call whose argument count differs from the
registered callee's parameter count fails the source's `assert`, raising a
host-level `AssertionError` — not an `EvaluationError`, so the driver's
"evaluation failed" handler never sees it. -/
theorem arity_mismatch_fails_assert
    (fuel : ℕ) (P : ProcEnv) (f : String) (args : List Exp) (ps : List String)
    (body : Stmt) (L : VEnv) (isG : Bool) (st : St)
    (hf : lookupProc P f = some (ps, body))
    (hne : ps.length ≠ args.length) :
    execStmt (fuel + 1) P (.call f args) L isG st = .err .assertionError := by
  rw [execStmt]
  simp only [hf, if_neg hne]

/-- Witness for C4: calling `f()` when `f` takes one parameter hits the
assertion. -/
theorem arity_mismatch_fails_assert_witness :
    execStmt 5 [("f", (["x"], .print (.var "x")))] (.call "f" []) [] true ⟨[], [], []⟩ =
      .err .assertionError :=
  arity_mismatch_fails_assert 4 [("f", (["x"], .print (.var "x")))] "f" []
    ["x"] (.print (.var "x")) [] true ⟨[], [], []⟩ rfl (by decide)

/-- Counterexample to C4 as stated: the whole-program run of `{ def f(x)
print x; f(); }` ends in `AssertionError`, which is a different error
category from `EvalError` — the claimed `EvaluationError` never arises. -/
theorem arity_mismatch_not_evalerror :
    runProgram 10 progArity = .err .assertionError ∧ Err.assertionError ≠ Err.evalError := by
  constructor
  · rfl
  · decide

/-- C5 (amended): an assignment whose left side is an `Index` node with a
`Var` base resolves the variable (in the global store at top level;
otherwise local store first, else global store, else `EvalError`).  If it
holds a Sequence and the index is below the current length, the element is
overwritten in place (the heap cell is mutated, no store entry changes);
if the index is at or past the current length the assignment fails with
`EvalError` and nothing is written, so the container is not grown.  If the
variable holds a Text value the in-place write raises a host `TypeError`
instead (Python strings are immutable), diverging from the claim. -/
theorem indexed_assign_resolution_and_bounds
    (P : ProcEnv) (fuel : ℕ) (x : String) (ie rhs : Exp) (L : VEnv) (st : St)
    (k : ℤ) (w : Value)
    (hie : evalExp ie L st.genv st.heap = .ok (.vint k, st.heap))
    (hrhs : evalExp rhs L st.genv st.heap = .ok (w, st.heap)) :
    (lookupEnv st.genv x = none →
      execStmt (fuel + 1) P (.assign (.index (.var x) ie) rhs) L true st = .err .evalError)
    ∧ (∀ a, lookupEnv st.genv x = some (.vref a) →
      (0 ≤ k → k < (st.heap.getD a []).length →
        execStmt (fuel + 1) P (.assign (.index (.var x) ie) rhs) L true st =
          .ok L { st with heap := st.heap.set a ((st.heap.getD a []).set k.toNat w) })
      ∧ (((st.heap.getD a []).length : ℤ) ≤ k →
        execStmt (fuel + 1) P (.assign (.index (.var x) ie) rhs) L true st = .err .evalError))
    ∧ (∀ s, lookupEnv st.genv x = some (.vstr s) →
      (k < s.length →
        execStmt (fuel + 1) P (.assign (.index (.var x) ie) rhs) L true st = .err .typeError)
      ∧ (((s.length : ℤ) ≤ k) →
        execStmt (fuel + 1) P (.assign (.index (.var x) ie) rhs) L true st = .err .evalError))
    ∧ (∀ a, lookupEnv L x = some (.vref a) → 0 ≤ k → k < (st.heap.getD a []).length →
        execStmt (fuel + 1) P (.assign (.index (.var x) ie) rhs) L false st =
          .ok L { st with heap := st.heap.set a ((st.heap.getD a []).set k.toNat w) })
    ∧ (lookupEnv L x = none → ∀ a, lookupEnv st.genv x = some (.vref a) →
        0 ≤ k → k < (st.heap.getD a []).length →
        execStmt (fuel + 1) P (.assign (.index (.var x) ie) rhs) L false st =
          .ok L { st with heap := st.heap.set a ((st.heap.getD a []).set k.toNat w) })
    ∧ (lookupEnv L x = none → lookupEnv st.genv x = none →
        execStmt (fuel + 1) P (.assign (.index (.var x) ie) rhs) L false st =
          .err .evalError) := by
  refine ⟨?_, ?_, ?_, ?_, ?_, ?_⟩
  · intro hx
    rw [execStmt]
    simp only [execAssign, varNameOf, hx]
    rfl
  · intro a hx
    constructor
    · intro hk0 hklen
      rw [execStmt]
      simp only [execAssign, varNameOf, hx]
      rw [(execIndexAssign_seq x ie rhs st.genv L st.genv st.heap k w a hie hrhs hx).1 hk0 hklen]
      rfl
    · intro hk
      rw [execStmt]
      simp only [execAssign, varNameOf, hx]
      rw [(execIndexAssign_seq x ie rhs st.genv L st.genv st.heap k w a hie hrhs hx).2 hk]
      rfl
  · intro s hx
    constructor
    · intro hk
      rw [execStmt]
      simp only [execAssign, varNameOf, hx]
      rw [(execIndexAssign_str x ie rhs st.genv L st.genv st.heap k w s hie hrhs hx).1 hk]
      rfl
    · intro hk
      rw [execStmt]
      simp only [execAssign, varNameOf, hx]
      rw [(execIndexAssign_str x ie rhs st.genv L st.genv st.heap k w s hie hrhs hx).2 hk]
      rfl
  · intro a hx hk0 hklen
    rw [execStmt]
    simp only [execAssign, varNameOf, hx]
    rw [(execIndexAssign_seq x ie rhs L L st.genv st.heap k w a hie hrhs hx).1 hk0 hklen]
    rfl
  · intro hxl a hx hk0 hklen
    rw [execStmt]
    simp only [execAssign, varNameOf, hxl, hx]
    rw [(execIndexAssign_seq x ie rhs st.genv L st.genv st.heap k w a hie hrhs hx).1 hk0 hklen]
    rfl
  · intro hxl hx
    rw [execStmt]
    simp only [execAssign, varNameOf, hxl, hx]
    rfl

/-- Witness for C5: with global `a = [1, 2]`, executing `a[0] = 9`
overwrites the heap cell in place. -/
theorem indexed_assign_resolution_and_bounds_witness :
    execStmt 3 [] (.assign (.index (.var "a") (.intLit 0)) (.intLit 9)) [] true
      ⟨[("a", .vref 0)], [[.vint 1, .vint 2]], []⟩ =
      .ok [] ⟨[("a", .vref 0)], [[.vint 9, .vint 2]], []⟩ := by
  have h := ((indexed_assign_resolution_and_bounds [] 2 "a" (.intLit 0) (.intLit 9) []
      ⟨[("a", .vref 0)], [[.vint 1, .vint 2]], []⟩ 0 (.vint 9) rfl rfl).2.1 0 rfl).1
      (by decide) (by decide)
  rw [h]
  rfl

/-- Counterexample to C5 as stated: a Text target is not "overwritten in
place" — `{ a = "ab"; a[0] = "c"; }` raises a host `TypeError`, not the
claimed successful element update (and not an `EvalError` either). -/
theorem text_element_assign_raises_typeerror :
    runProgram 10 progTextWrite = .err .typeError ∧ Err.typeError ≠ Err.evalError := by
  constructor
  · rfl
  · decide

/-- C6: sequence values are reference-like.  Running `a = [1,2,3]; b = a;
b[0] = 9; print a[0];` leaves both `a` and `b` bound to the same heap
address 0, whose cell was mutated in place through `b`, so reading `a[0]`
afterwards yields 9 (also visible as the printed line). -/
theorem sequence_assignment_shares_storage :
    runProgram 10 progAlias =
      .ok [] ⟨[("a", .vref 0), ("b", .vref 0)], [[.vint 9, .vint 2, .vint 3]], [['9']]⟩ ∧
    evalExp (.index (.var "a") (.intLit 0)) [] [("a", .vref 0), ("b", .vref 0)]
      [[.vint 9, .vint 2, .vint 3]] = .ok (.vint 9, [[.vint 9, .vint 2, .vint 3]]) :=
  ⟨rfl, rfl⟩

/-- C7 (amended): for an index read `base[idx]` with `base` a Text or
Sequence value and `idx` an Integer: positions `0 ≤ idx < length` return
the element (single-character Text for Text); `idx ≥ length` raises
`EvalError`; a negative `idx` is not rejected — positions `-length ≤ idx <
0` wrap around (Python semantics) and return the element at
`length + idx`, and only `idx < -length` fails, as a host `IndexError`. -/
theorem index_read_bounds_and_wraparound
    (base ie : Exp) (L G : VEnv) (h h1 h2 : Heap) (v1 : Value) (k : ℤ)
    (hb : evalExp base L G h = .ok (v1, h1))
    (hi : evalExp ie L G h1 = .ok (.vint k, h2)) :
    (∀ s, v1 = .vstr s →
      (0 ≤ k → k < s.length →
        evalExp (.index base ie) L G h = .ok (.vstr [s.getD k.toNat ' '], h2))
      ∧ ((s.length : ℤ) ≤ k → evalExp (.index base ie) L G h = .error .evalError)
      ∧ (k < 0 → 0 ≤ k + s.length →
        evalExp (.index base ie) L G h = .ok (.vstr [s.getD (k + s.length).toNat ' '], h2))
      ∧ (k + s.length < 0 → evalExp (.index base ie) L G h = .error .indexError))
    ∧ (∀ a, v1 = .vref a →
      (0 ≤ k → k < (h2.getD a []).length →
        evalExp (.index base ie) L G h = .ok ((h2.getD a []).getD k.toNat (.vint 0), h2))
      ∧ (((h2.getD a []).length : ℤ) ≤ k →
        evalExp (.index base ie) L G h = .error .evalError)
      ∧ (k < 0 → 0 ≤ k + (h2.getD a []).length →
        evalExp (.index base ie) L G h =
          .ok ((h2.getD a []).getD (k + (h2.getD a []).length).toNat (.vint 0), h2))
      ∧ (k + (h2.getD a []).length < 0 →
        evalExp (.index base ie) L G h = .error .indexError)) := by
  constructor
  · rintro s rfl
    refine ⟨?_, ?_, ?_, ?_⟩
    · intro hk0 hklen
      rw [evalExp]
      simp only [hb, hi, evalIndexVal, pyIndexPos]
      rw [if_neg (by omega), if_pos hk0, if_pos (by exact_mod_cast hklen)]
      rfl
    · intro hk
      rw [evalExp]
      simp only [hb, hi, evalIndexVal]
      rw [if_pos hk]
      rfl
    · intro hk0 hklen
      rw [evalExp]
      simp only [hb, hi, evalIndexVal, pyIndexPos]
      rw [if_neg (by omega), if_neg (by omega), if_pos hklen]
      rfl
    · intro hk
      rw [evalExp]
      simp only [hb, hi, evalIndexVal, pyIndexPos]
      rw [if_neg (by omega), if_neg (by omega), if_neg (by omega)]
      rfl
  · rintro a rfl
    refine ⟨?_, ?_, ?_, ?_⟩
    · intro hk0 hklen
      rw [evalExp]
      simp only [hb, hi, evalIndexVal, pyIndexPos]
      rw [if_neg (by omega), if_pos hk0, if_pos (by exact_mod_cast hklen)]
      rfl
    · intro hk
      rw [evalExp]
      simp only [hb, hi, evalIndexVal]
      rw [if_pos hk]
      rfl
    · intro hk0 hklen
      rw [evalExp]
      simp only [hb, hi, evalIndexVal, pyIndexPos]
      rw [if_neg (by omega), if_neg (by omega), if_pos hklen]
      rfl
    · intro hk
      rw [evalExp]
      simp only [hb, hi, evalIndexVal, pyIndexPos]
      rw [if_neg (by omega), if_neg (by omega), if_neg (by omega)]
      rfl

/-- Witness for C7: reading `"ab"[1]` yields the single-character Text
`"b"` and `"ab"[2]` raises `EvalError`. -/
theorem index_read_bounds_and_wraparound_witness :
    evalExp (.index (.strLit ['a', 'b']) (.intLit 1)) [] [] [] = .ok (.vstr ['b'], []) ∧
    evalExp (.index (.strLit ['a', 'b']) (.intLit 2)) [] [] [] = .error .evalError := by
  constructor
  · exact ((index_read_bounds_and_wraparound (.strLit ['a', 'b']) (.intLit 1)
      [] [] [] [] [] (.vstr ['a', 'b']) 1 rfl rfl).1 ['a', 'b'] rfl).1
      (by decide) (by decide)
  · exact (((index_read_bounds_and_wraparound (.strLit ['a', 'b']) (.intLit 2)
      [] [] [] [] [] (.vstr ['a', 'b']) 2 rfl rfl).1 ['a', 'b'] rfl).2).1 (by decide)

/-- Counterexample to C7 as stated: a negative index does not fail — it
wraps around.  `"ab"[-1]` evaluates successfully to `"b"`, which is not an
error of any kind. -/
theorem negative_index_wraps_instead_of_failing :
    evalExp (.index (.strLit ['a', 'b']) (.intLit (-1))) [] [] [] = .ok (.vstr ['b'], []) ∧
    (Except.ok (Value.vstr ['b'], ([] : Heap)) : Except Err (Value × Heap)) ≠
      .error .indexError := by
  constructor
  · rfl
  · intro h
    cases h

/-- C8 (amended): an assignment whose left side is neither a `Var` nor an
`Index` node (a literal, an array literal, a unary or binary expression)
falls through both `isinstance` tests: no error is raised, no store is
touched and the right-hand side is not even evaluated — a silent no-op.
But an `Index` left side whose base is not a `Var` (the claim included
that case) is not a no-op: accessing `.indexable.name` raises a host
`AttributeError`. -/
theorem non_var_non_index_lhs_is_noop
    (fuel : ℕ) (P : ProcEnv) (left right : Exp) (L : VEnv) (isG : Bool) (st : St) :
    (isVarNode left = false → isIndexNode left = false →
      execStmt (fuel + 1) P (.assign left right) L isG st = .ok L st)
    ∧ (∀ base ie, isVarNode base = false →
      execStmt (fuel + 1) P (.assign (.index base ie) right) L isG st =
        .err .attributeError) := by
  constructor
  · intro h1 h2
    rw [execStmt]
    cases left with
    | var n => simp [isVarNode] at h1
    | index b i => simp [isIndexNode] at h2
    | intLit v => cases isG <;> rfl
    | strLit v => cases isG <;> rfl
    | arrayLit es => cases isG <;> rfl
    | binOp l op r => cases isG <;> rfl
    | notOp e => cases isG <;> rfl
  · intro base ie hbase
    rw [execStmt]
    cases base with
    | var n => simp [isVarNode] at hbase
    | intLit v => cases isG <;> rfl
    | strLit v => cases isG <;> rfl
    | arrayLit es => cases isG <;> rfl
    | index b i => cases isG <;> rfl
    | binOp l op r => cases isG <;> rfl
    | notOp e => cases isG <;> rfl

/-- Witness for C8: `3 = 5;` executes as a silent no-op leaving the state
untouched, while `1[0] = 5;` raises the host `AttributeError`. -/
theorem non_var_non_index_lhs_is_noop_witness :
    execStmt 3 [] (.assign (.intLit 3) (.intLit 5)) [] true ⟨[], [], []⟩ =
      .ok [] ⟨[], [], []⟩ ∧
    execStmt 3 [] (.assign (.index (.intLit 1) (.intLit 0)) (.intLit 5)) [] true
      ⟨[], [], []⟩ = .err .attributeError := by
  constructor
  · exact (non_var_non_index_lhs_is_noop 2 [] (.intLit 3) (.intLit 5) [] true
      ⟨[], [], []⟩).1 rfl rfl
  · exact (non_var_non_index_lhs_is_noop 2 [] (.intLit 3) (.intLit 5) [] true
      ⟨[], [], []⟩).2 (.intLit 1) (.intLit 0) rfl

/-- Counterexample to C8 as stated: the claim covered an `IndexExpr` whose
base is itself an `IndexExpr` among the silent no-ops, but executing
`a[0][0] = 5` raises `AttributeError` instead of leaving the stores
unchanged without error. -/
theorem nested_index_lhs_raises_attribute_error :
    execStmt 3 [] (.assign (.index (.index (.var "a") (.intLit 0)) (.intLit 0)) (.intLit 5))
      [] true ⟨[("a", .vref 0)], [[.vref 0]], []⟩ = .err .attributeError ∧
    Res.err Err.attributeError ≠ Res.ok [] ⟨[("a", .vref 0)], [[.vref 0]], []⟩ := by
  constructor
  · rfl
  · intro h
    cases h

/-- C9 (amended): the spec's source text is two top-level statements, but a
Program is a single `Stmt`, so the parser rejects it (the single-statement
parse succeeds and leaves the `while` loop's tokens unconsumed, showing
the rejection is the trailing input, not missing fuel).  Wrapped in braces
as one block, the source parses to `progLoop` and its execution prints
exactly the lines `0`, `1`, `2` in order, leaving the global store with
`i` bound to Integer 3. -/
theorem loop_source_as_block_prints_0_1_2 :
    parseProgram 200 srcLoopBlock = some progLoop ∧
    runProgram 30 progLoop = .ok [] ⟨[("i", .vint 3)], [], [['0'], ['1'], ['2']]⟩ :=
  ⟨rfl, rfl⟩

/-- Counterexample to C9 as stated: the unbraced two-statement source text
is not accepted by the parser — parsing one statement consumes only
`i = 0;` and the `while` loop's tokens remain, so the program is
rejected. -/
theorem loop_source_unbraced_is_rejected :
    parseProgram 200 srcLoop = none ∧
    (tokenize srcLoop.data.length srcLoop.data).map (fun toks => parseStmt 200 toks) =
      some (some (.assign (.var "i") (.intLit 0),
        [.sym "while", .sym "(", .identTok "i", .sym "<", .intTok 3, .sym ")",
         .sym "\x7b", .sym "print", .identTok "i", .sym ";", .identTok "i",
         .sym "=", .identTok "i", .sym "+", .intTok 1, .sym ";", .sym "\x7d"])) :=
  ⟨rfl, rfl⟩

/-- C10: `If` and `While` never type-check their condition.  When the
condition evaluates to a Text or Sequence value — empty or not — the
Python test `value != 0` is true (a str or list is never equal to the int
0), so no error is raised: the `If` body executes, and the `While` loop
unfolds into one body execution followed by the loop again. -/
theorem text_or_sequence_condition_is_truthy
    (fuel : ℕ) (P : ProcEnv) (c : Exp) (body : Stmt) (L : VEnv) (isG : Bool)
    (st : St) (v : Value) (h1 : Heap)
    (hc : evalExp c L st.genv st.heap = .ok (v, h1))
    (hv : (∃ s, v = .vstr s) ∨ (∃ a, v = .vref a)) :
    (execStmt (fuel + 1) P (.ifS c body) L isG st =
      execStmt fuel P body L isG { st with heap := h1 })
    ∧ (execStmt (fuel + 1) P (.whileS c body) L isG st =
      match execStmt fuel P body L isG { st with heap := h1 } with
      | .ok L' st' => execStmt fuel P (.whileS c body) L' isG st'
      | r => r) := by
  have hnz : pyNeZero v = true := by
    rcases hv with ⟨s, rfl⟩ | ⟨a, rfl⟩ <;> rfl
  constructor
  · rw [execStmt]
    simp only [hc, hnz, if_true]
  · rw [execStmt]
    simp only [hc, hnz, if_true]

/-- Witness for C10: an empty Text condition runs the `if` body — `if ("")
print 1;` prints `1` with no error. -/
theorem text_or_sequence_condition_is_truthy_witness :
    execStmt 4 [] (.ifS (.strLit []) (.print (.intLit 1))) [] true ⟨[], [], []⟩ =
      .ok [] ⟨[], [], [['1']]⟩ := by
  have h := (text_or_sequence_condition_is_truthy 3 [] (.strLit []) (.print (.intLit 1))
      [] true ⟨[], [], []⟩ (.vstr []) [] rfl (Or.inl ⟨[], rfl⟩)).1
  rw [h]
  rfl

end A4
